import Mathlib

/-!
Verification development for the `ccpm` reconciliation engine
(`src/ccpm/core/merger.py`, `src/ccpm/core/installer.py`,
`src/ccpm/utils/backup.py`).

Modelling conventions:
* Python strings are modelled as `List Char` (`Str`).  `str.startswith`,
  `str.endswith`, `in` (substring) become prefix / suffix / infix tests on
  character lists.
* A directory tree on disk is modelled as an association list from
  slash-separated relative path strings to file contents
  (`FileTree := List (Str × Str)`).  Empty directories are not represented:
  a directory "exists" iff some file lives strictly below it.  All the
  verified operations only create directories as a side effect of creating
  files, so this does not lose behaviour relevant to the claims.
* `setup`'s backup-merge step (`_merge_user_content_from_backup`) walks
  directory levels recursively, so for that part a rose-tree
  representation (`Node`) is used instead.
* Python exceptions are modelled by the `PyError` type; `raise ... from e`
  is modelled by nesting the cause inside the raised error.
-/

set_option autoImplicit false

namespace CCPM

/-- Python strings are modelled as lists of characters. -/
abbrev Str := List Char

/-- `isPrefix p s` models Python `s.startswith(p)`. -/
def isPrefix : Str → Str → Bool
  | [], _ => true
  | _ :: _, [] => false
  | p :: ps, c :: cs => p = c && isPrefix ps cs

/-- `isSuffix p s` models Python `s.endswith(p)`. -/
def isSuffix (p s : Str) : Bool :=
  isPrefix p.reverse s.reverse

/-- `isSubstr p s` models Python `p in s` (substring containment). -/
def isSubstr (p s : Str) : Bool :=
  isPrefix p s || (match s with
    | [] => false
    | _ :: cs => isSubstr p cs)

@[simp] theorem isPrefix_nil (s : Str) : isPrefix [] s = true := by
  cases s <;> rfl

theorem isPrefix_iff (p s : Str) : isPrefix p s = true ↔ ∃ t, s = p ++ t := by
  induction p generalizing s with
  | nil => simp
  | cons a ps ih =>
    cases s with
    | nil => simp [isPrefix]
    | cons c cs =>
      simp only [isPrefix, Bool.and_eq_true, decide_eq_true_eq, ih, List.cons_append,
        List.cons.injEq]
      constructor
      · rintro ⟨rfl, t, rfl⟩; exact ⟨t, rfl, rfl⟩
      · rintro ⟨t, rfl, rfl⟩; exact ⟨rfl, t, rfl⟩

theorem isPrefix_iff_IsPrefix (p s : Str) : isPrefix p s = true ↔ p <+: s := by
  rw [isPrefix_iff]
  exact ⟨fun ⟨t, h⟩ => ⟨t, h.symm⟩, fun ⟨t, h⟩ => ⟨t, h.symm⟩⟩

@[simp] theorem isPrefix_append (p t : Str) : isPrefix p (p ++ t) = true := by
  rw [isPrefix_iff]; exact ⟨t, rfl⟩

theorem isPrefix_trans {a b c : Str} (h₁ : isPrefix a b = true) (h₂ : isPrefix b c = true) :
    isPrefix a c = true := by
  rw [isPrefix_iff_IsPrefix] at *
  exact h₁.trans h₂

/-- Prefix tests ignore a shared leading segment. -/
theorem isPrefix_append_same (l p s : Str) :
    isPrefix (l ++ p) (l ++ s) = isPrefix p s := by
  induction l with
  | nil => rfl
  | cons c l ih => simp [isPrefix, ih]

/-- A file tree: finite map from relative path strings to file contents. -/
abbrev FileTree := List (Str × Str)

/-- Look up the content stored at a path (first match wins). -/
def lookupFile : FileTree → Str → Option Str
  | [], _ => none
  | (k, v) :: rest, p => if k = p then some v else lookupFile rest p

/-- Write a file at a path, replacing any previous entry (Python
`shutil.copy2` / `open(path, "w")` overwrite semantics). -/
def insertFile (fs : FileTree) (p c : Str) : FileTree :=
  fs.filter (fun e => !decide (e.1 = p)) ++ [(p, c)]

@[simp] theorem lookupFile_nil (p : Str) : lookupFile [] p = none := rfl

@[simp] theorem lookupFile_cons (k v : Str) (rest : FileTree) (p : Str) :
    lookupFile ((k, v) :: rest) p = if k = p then some v else lookupFile rest p := rfl

theorem lookupFile_append (l₁ l₂ : FileTree) (p : Str) :
    lookupFile (l₁ ++ l₂) p =
      (lookupFile l₁ p).rec (lookupFile l₂ p) (fun v => some v) := by
  induction l₁ with
  | nil => rfl
  | cons e rest ih =>
    obtain ⟨k, v⟩ := e
    by_cases h : k = p <;> simp [h, ih]

theorem lookupFile_filter_other {fs : FileTree} (pred : Str → Bool)
    (p : Str) (hp : pred p = true) :
    lookupFile (fs.filter (fun e => pred e.1)) p = lookupFile fs p := by
  induction fs with
  | nil => rfl
  | cons e rest ih =>
    obtain ⟨k, v⟩ := e
    by_cases hk : k = p
    · subst hk; simp [hp, ih]
    · by_cases hpk : pred k <;> simp [hpk, hk, ih]

theorem lookupFile_filter_none {fs : FileTree} (pred : Str → Bool)
    (p : Str) (hp : pred p = false) :
    lookupFile (fs.filter (fun e => pred e.1)) p = none := by
  induction fs with
  | nil => rfl
  | cons e rest ih =>
    obtain ⟨k, v⟩ := e
    by_cases hpk : pred k
    · have hk : k ≠ p := by rintro rfl; rw [hp] at hpk; cases hpk
      simp [hpk, hk, ih]
    · simp [hpk, ih]

@[simp] theorem lookupFile_insertFile_self (fs : FileTree) (p c : Str) :
    lookupFile (insertFile fs p c) p = some c := by
  unfold insertFile
  induction fs with
  | nil => simp
  | cons e rest ih =>
    obtain ⟨k, v⟩ := e
    by_cases hk : k = p <;> simp [hk, ih]

theorem lookupFile_insertFile_ne (fs : FileTree) (q c p : Str) (h : q ≠ p) :
    lookupFile (insertFile fs q c) p = lookupFile fs p := by
  unfold insertFile
  induction fs with
  | nil => simp [h]
  | cons e rest ih =>
    obtain ⟨k, v⟩ := e
    by_cases hk : k = p
    · subst hk
      simp [Ne.symm h, ih]
    · by_cases hkq : k = q <;> simp [hk, hkq, ih, h]

theorem lookupFile_eq_none_of_not_mem {fs : FileTree} {p : Str}
    (h : p ∉ fs.map Prod.fst) : lookupFile fs p = none := by
  induction fs with
  | nil => rfl
  | cons e rest ih =>
    obtain ⟨k, v⟩ := e
    simp only [List.map_cons, List.mem_cons] at h
    push_neg at h
    simp [Ne.symm h.1, ih h.2]

/-- Python `str.split(sep)` for a single-character separator. -/
def splitOnChar (sep : Char) : Str → List Str
  | [] => [[]]
  | c :: cs =>
    match splitOnChar sep cs with
    | [] => [[c]]  -- unreachable: splitOnChar never returns []
    | piece :: rest =>
      if c = sep then [] :: piece :: rest else (c :: piece) :: rest

theorem splitOnChar_cons (sep c : Char) (cs : Str) :
    splitOnChar sep (c :: cs) =
      match splitOnChar sep cs with
      | [] => [[c]]
      | piece :: rest =>
        if c = sep then [] :: piece :: rest else (c :: piece) :: rest := rfl

theorem splitOnChar_cons_eq {sep : Char} {cs : Str} {p : Str} {rest : List Str}
    (c : Char) (hs : splitOnChar sep cs = p :: rest) :
    splitOnChar sep (c :: cs) =
      if c = sep then [] :: p :: rest else (c :: p) :: rest := by
  rw [splitOnChar_cons, hs]

theorem splitOnChar_ne_nil (sep : Char) (s : Str) : splitOnChar sep s ≠ [] := by
  cases s with
  | nil => simp [splitOnChar]
  | cons c cs =>
    rw [splitOnChar_cons]
    cases splitOnChar sep cs with
    | nil => simp
    | cons piece rest => by_cases h : c = sep <;> simp [h]

theorem not_mem_of_mem_splitOnChar {sep : Char} {s : Str} {piece : Str}
    (h : piece ∈ splitOnChar sep s) : sep ∉ piece := by
  induction s generalizing piece with
  | nil =>
    simp only [splitOnChar, List.mem_singleton] at h
    subst h; simp
  | cons c cs ih =>
    cases hs : splitOnChar sep cs with
    | nil => exact absurd hs (splitOnChar_ne_nil sep cs)
    | cons p rest =>
      rw [splitOnChar_cons_eq c hs] at h
      have hp : sep ∉ p := ih (by rw [hs]; exact List.mem_cons_self _ _)
      have hrest : ∀ x ∈ rest, sep ∉ x := fun x hx =>
        ih (by rw [hs]; exact List.mem_cons_of_mem _ hx)
      by_cases hc : c = sep
      · rw [if_pos hc] at h
        rcases List.mem_cons.mp h with rfl | h2
        · simp
        · rcases List.mem_cons.mp h2 with rfl | h3
          · exact hp
          · exact hrest _ h3
      · rw [if_neg hc] at h
        rcases List.mem_cons.mp h with rfl | h2
        · intro hm
          rcases List.mem_cons.mp hm with rfl | hm2
          · exact hc rfl
          · exact hp hm2
        · exact hrest _ h2

theorem splitOnChar_of_not_mem {sep : Char} {l : Str} (h : sep ∉ l) :
    splitOnChar sep l = [l] := by
  induction l with
  | nil => rfl
  | cons c cs ih =>
    simp only [List.mem_cons] at h
    push_neg at h
    rw [splitOnChar_cons, ih h.2]
    simp [Ne.symm h.1]

theorem splitOnChar_append_cons {sep : Char} {l : Str} (h : sep ∉ l) (rest : Str) :
    splitOnChar sep (l ++ sep :: rest) =
      l :: splitOnChar sep rest := by
  induction l with
  | nil =>
    simp only [List.nil_append]
    rw [splitOnChar_cons]
    cases hs : splitOnChar sep rest with
    | nil => exact absurd hs (splitOnChar_ne_nil sep rest)
    | cons p r => simp
  | cons c cs ih =>
    simp only [List.mem_cons] at h
    push_neg at h
    simp only [List.cons_append]
    rw [splitOnChar_cons, ih h.2]
    simp [Ne.symm h.1]

theorem splitOnChar_concat (sep : Char) (s : Str) :
    splitOnChar sep (s ++ [sep]) = splitOnChar sep s ++ [[]] := by
  induction s with
  | nil => simp [splitOnChar]
  | cons c cs ih =>
    simp only [List.cons_append]
    rw [splitOnChar_cons, splitOnChar_cons, ih]
    cases hs : splitOnChar sep cs with
    | nil => exact absurd hs (splitOnChar_ne_nil sep cs)
    | cons p r => by_cases h : c = sep <;> simp [h]

/-! Directory-level views of a `FileTree`.  A directory exists iff some
file lives strictly below it; `subtreeEntries` lists those files with
their paths made relative to the directory (mirroring `Path.rglob` /
`shutil.copytree` enumerations). -/

/-- The files strictly below directory `p`, keyed by their path relative
to `p`. -/
def subtreeEntries (fs : FileTree) (p : Str) : FileTree :=
  fs.filterMap (fun e =>
    if isPrefix (p ++ ['/']) e.1 then some (e.1.drop (p.length + 1), e.2)
    else none)

/-- `Path.exists()` for a path of a `FileTree`: a file at `p` or a file
strictly below `p`. -/
def existsPath (fs : FileTree) (p : Str) : Bool :=
  (lookupFile fs p).isSome || !(subtreeEntries fs p).isEmpty

/-- `Path.is_dir()`: some file lives strictly below `p`. -/
def isDirPath (fs : FileTree) (p : Str) : Bool :=
  !(subtreeEntries fs p).isEmpty

/-- `shutil.rmtree p`: drop every file strictly below `p`. -/
def rmtreePath (fs : FileTree) (p : Str) : FileTree :=
  fs.filter (fun e => !isPrefix (p ++ ['/']) e.1)

/-- `Path.unlink p`: drop the file at `p`. -/
def unlinkPath (fs : FileTree) (p : Str) : FileTree :=
  fs.filter (fun e => !decide (e.1 = p))

theorem lookupFile_rmtreePath_other {fs : FileTree} {p k : Str}
    (h : isPrefix (p ++ ['/']) k = false) :
    lookupFile (rmtreePath fs p) k = lookupFile fs k := by
  unfold rmtreePath
  exact lookupFile_filter_other (fun x => !isPrefix (p ++ ['/']) x) k (by simp [h])

theorem lookupFile_unlinkPath_other {fs : FileTree} {p k : Str} (h : k ≠ p) :
    lookupFile (unlinkPath fs p) k = lookupFile fs k := by
  unfold unlinkPath
  exact lookupFile_filter_other (fun x => !decide (x = p)) k (by simp [h])

/-- `subtreeEntries` looks up relative keys exactly as the whole tree
looks up the corresponding absolute keys. -/
theorem lookupFile_subtreeEntries (fs : FileTree) (p rest : Str) :
    lookupFile (subtreeEntries fs p) rest = lookupFile fs (p ++ '/' :: rest) := by
  induction fs with
  | nil => rfl
  | cons e fs ih =>
    obtain ⟨k, v⟩ := e
    unfold subtreeEntries
    by_cases hpre : isPrefix (p ++ ['/']) k = true
    · obtain ⟨t, rfl⟩ := (isPrefix_iff _ _).mp hpre
      have hdrop : (p ++ ['/'] ++ t).drop (p.length + 1) = t := by
        rw [List.drop_append_eq_append_drop]
        simp
      have hkey : (p ++ ['/'] ++ t = p ++ '/' :: rest) ↔ t = rest := by
        constructor
        · intro hc
          have h2 : p ++ '/' :: t = p ++ '/' :: rest := by simpa using hc
          exact List.cons_injective (List.append_cancel_left h2)
        · rintro rfl; simp
      simp only [List.filterMap_cons, hpre, if_true, hdrop]
      simp only [lookupFile_cons]
      by_cases ht : t = rest
      · rw [if_pos ht, if_pos (hkey.mpr ht)]
      · rw [if_neg ht, if_neg (fun hc => ht (hkey.mp hc))]
        exact ih
    · have hne : k ≠ p ++ '/' :: rest := by
        intro hcontra
        rw [hcontra] at hpre
        have habs : isPrefix (p ++ ['/']) (p ++ '/' :: rest) = true := by
          have h3 : p ++ '/' :: rest = (p ++ ['/']) ++ rest := by simp
          rw [h3]
          exact isPrefix_append _ _
        exact hpre habs
      simp only [List.filterMap_cons, hpre, if_false]
      rw [lookupFile_cons, if_neg hne]
      exact ih

/-- If nothing lives below `p`, absolute lookups below `p` fail. -/
theorem lookupFile_below_of_subtree_nil {fs : FileTree} {p : Str}
    (h : subtreeEntries fs p = []) (rest : Str) :
    lookupFile fs (p ++ '/' :: rest) = none := by
  rw [← lookupFile_subtreeEntries, h]
  rfl

end CCPM

/-! ## DirectoryMerger (`src/ccpm/core/merger.py`) -/

namespace CCPM.DirectoryMerger

open CCPM

/-- `DirectoryMerger.OVERWRITE_FILES`: files always overwritten from CCPM.
(The Python set is modelled as a list; every decision below is
independent of iteration order.) -/
def OVERWRITE_FILES : List Str :=
  ["scripts/pm/*.sh".toList, "commands/pm/*.md".toList, "agents/*.md".toList]

/-- `DirectoryMerger.PRESERVE_FILES`: files never overwritten
(user customizations). -/
def PRESERVE_FILES : List Str :=
  ["CLAUDE.md".toList, "settings.local.json".toList, "context/*.md".toList,
   "rules/*.md".toList]

/-- Python `str.replace("\\", "/")` (the pattern is a single character,
so this is a character map). -/
def replaceBackslash (s : Str) : Str :=
  s.map (fun c => if c = '\\' then '/' else c)

/-- `DirectoryMerger._matches_pattern`: wildcard matching used for the
overwrite/preserve rule sets. -/
def matchesPattern (path pattern : Str) : Bool :=
  let path := replaceBackslash path
  let pattern := replaceBackslash pattern
  if pattern.contains '*' then
    let parts := splitOnChar '*' pattern
    match parts with
    | [prefixPart, suffixPart] =>
      -- pattern like "dir/*.ext"
      isPrefix prefixPart path && isSuffix suffixPart path
    | _ =>
      if pattern = "*".toList then true
      else if isSuffix "/*".toList pattern then
        isPrefix (pattern.dropLast.dropLast ++ "/".toList) path
      else false  -- Python falls off the function: implicit None (falsy)
  else decide (path = pattern)

/-- `DirectoryMerger._should_copy_file`: decide whether a source file is
copied onto the target.  `targetExists` is `target_file.exists()`. -/
def shouldCopyFile (relStr : Str) (targetExists : Bool) (updateMode : Bool) : Bool :=
  match PRESERVE_FILES.find? (fun pat => matchesPattern relStr pat) with
  | some _ =>
    -- never overwrite preserved files; copy only if absent
    !targetExists
  | none =>
    if OVERWRITE_FILES.any (fun pat => matchesPattern relStr pat) then
      true  -- always copy these files
    else if updateMode then
      !targetExists  -- in update mode, only copy if file doesn't exist
    else
      !targetExists  -- in initial install, copy everything that doesn't exist

/-- `DirectoryMerger.merge_directories` (source assumed to exist:
the Python code raises `ValueError` for a missing source before any of
the behaviour verified here).  Iterates the source files, consulting
`shouldCopyFile` against the current state of the target. -/
def merge_directories (source target : FileTree) (updateMode : Bool) : FileTree :=
  source.foldl
    (fun tgt file =>
      if shouldCopyFile file.1 (lookupFile tgt file.1).isSome updateMode then
        insertFile tgt file.1 file.2
      else
        tgt)
    target

theorem merge_directories_nil (target : FileTree) (u : Bool) :
    merge_directories [] target u = target := rfl

theorem merge_directories_cons (q cq : Str) (rest : FileTree)
    (target : FileTree) (u : Bool) :
    merge_directories ((q, cq) :: rest) target u =
      merge_directories rest
        (if shouldCopyFile q (lookupFile target q).isSome u then
          insertFile target q cq
        else target) u := rfl

/-- A path matching some preserve pattern is never copied over an
existing target file. -/
theorem shouldCopyFile_of_preserve {p : Str} {pat : Str}
    (hmem : pat ∈ PRESERVE_FILES) (hmatch : matchesPattern p pat = true)
    (u : Bool) : shouldCopyFile p true u = false := by
  unfold shouldCopyFile
  cases hf : PRESERVE_FILES.find? (fun pat => matchesPattern p pat) with
  | some q => simp
  | none =>
    exfalso
    have := List.find?_eq_none.mp hf pat hmem
    rw [hmatch] at this
    exact this rfl

/-- Merging never changes the content stored at a path that matches a
preserve pattern and already exists in the target. -/
theorem merge_preserves_existing_preserved
    (source : FileTree) {target : FileTree} {p c : Str} {pat : Str}
    (hmem : pat ∈ PRESERVE_FILES) (hmatch : matchesPattern p pat = true)
    (hex : lookupFile target p = some c) (u : Bool) :
    lookupFile (merge_directories source target u) p = some c := by
  induction source generalizing target with
  | nil => exact hex
  | cons f rest ih =>
    obtain ⟨q, cq⟩ := f
    rw [merge_directories_cons]
    by_cases hq : q = p
    · subst hq
      have h1 : (lookupFile target q).isSome = true := by rw [hex]; rfl
      rw [h1, shouldCopyFile_of_preserve hmem hmatch u]
      simp only [Bool.false_eq_true, if_false]
      exact ih hex
    · by_cases hcopy : shouldCopyFile q (lookupFile target q).isSome u
      · rw [hcopy]
        simp only [if_true]
        exact ih (by rw [lookupFile_insertFile_ne _ _ _ _ hq]; exact hex)
      · rw [Bool.eq_false_iff.mpr hcopy]
        simp only [Bool.false_eq_true, if_false]
        exact ih hex

/-- Per-path characterization of `merge_directories` when source paths
are distinct (as produced by the recursive directory scan). -/
theorem merge_lookup_characterization
    {source : FileTree} (hnd : (source.map Prod.fst).Nodup)
    (target : FileTree) (u : Bool) (p : Str) :
    lookupFile (merge_directories source target u) p =
      match lookupFile source p with
      | none => lookupFile target p
      | some c =>
        if shouldCopyFile p (lookupFile target p).isSome u then some c
        else lookupFile target p := by
  induction source generalizing target with
  | nil => rfl
  | cons f rest ih =>
    obtain ⟨q, cq⟩ := f
    simp only [List.map_cons, List.nodup_cons] at hnd
    obtain ⟨hq_not, hnd'⟩ := hnd
    rw [merge_directories_cons]
    by_cases hqp : q = p
    · subst hqp
      have hrest : lookupFile rest q = none := lookupFile_eq_none_of_not_mem hq_not
      by_cases hcopy : shouldCopyFile q (lookupFile target q).isSome u
      · rw [hcopy]
        simp only [if_true]
        rw [ih hnd' (insertFile target q cq)]
        simp [hrest, hcopy]
      · rw [Bool.eq_false_iff.mpr hcopy]
        simp only [Bool.false_eq_true, if_false]
        rw [ih hnd' target]
        simp [hrest, Bool.eq_false_iff.mpr hcopy]
    · by_cases hcopy : shouldCopyFile q (lookupFile target q).isSome u
      · rw [hcopy]
        simp only [if_true]
        rw [ih hnd' (insertFile target q cq)]
        rw [lookupFile_insertFile_ne _ _ _ _ hqp]
        simp [hqp]
      · rw [Bool.eq_false_iff.mpr hcopy]
        simp only [Bool.false_eq_true, if_false]
        rw [ih hnd' target]
        simp [hqp]

-- scratch sanity checks (pattern matching semantics)
example : matchesPattern "CLAUDE.md".toList "CLAUDE.md".toList = true := by decide
example : matchesPattern "context/x.md".toList "context/*.md".toList = true := by decide
example : matchesPattern "scripts/pm/init.sh".toList "scripts/pm/*.sh".toList = true := by decide
example : matchesPattern "scripts/pm/init.py".toList "scripts/pm/*.sh".toList = false := by decide
example : shouldCopyFile "CLAUDE.md".toList true true = false := by decide
example : shouldCopyFile "CLAUDE.md".toList false true = true := by decide
example : shouldCopyFile "agents/x.md".toList true false = true := by decide
example : shouldCopyFile "foo/bar.txt".toList true true = false := by decide
example : shouldCopyFile "foo/bar.txt".toList false false = true := by decide

/-- C4: a source path matching a `PRESERVE_FILES` pattern whose target
file already exists keeps its target content through
`merge_directories`, in update mode and in install mode alike. -/
theorem preserve_files_never_modified
    (source target : FileTree) (p c pat : Str)
    (hmem : pat ∈ PRESERVE_FILES) (hmatch : matchesPattern p pat = true)
    (hex : lookupFile target p = some c) :
    lookupFile (merge_directories source target true) p = some c ∧
    lookupFile (merge_directories source target false) p = some c :=
  ⟨merge_preserves_existing_preserved source hmem hmatch hex true,
   merge_preserves_existing_preserved source hmem hmatch hex false⟩

/-- C4 witness: `CLAUDE.md` with custom content survives a merge that
ships a new `CLAUDE.md`. -/
theorem preserve_files_never_modified_witness :
    "CLAUDE.md".toList ∈ PRESERVE_FILES ∧
    matchesPattern "CLAUDE.md".toList "CLAUDE.md".toList = true ∧
    lookupFile [("CLAUDE.md".toList, "# custom".toList)] "CLAUDE.md".toList =
      some "# custom".toList ∧
    lookupFile
      (merge_directories [("CLAUDE.md".toList, "# template".toList)]
        [("CLAUDE.md".toList, "# custom".toList)] true)
      "CLAUDE.md".toList = some "# custom".toList :=
  ⟨by decide, by decide, by decide,
    (preserve_files_never_modified
      [("CLAUDE.md".toList, "# template".toList)]
      [("CLAUDE.md".toList, "# custom".toList)]
      "CLAUDE.md".toList "# custom".toList "CLAUDE.md".toList
      (by decide) (by decide) (by decide)).1⟩

/-- C7: merging in update mode is idempotent — a second identical
`merge_directories` run leaves every path of the target tree with the
same content the first run produced. -/
theorem merge_update_mode_idempotent
    (source target : FileTree)
    (hnd : (source.map Prod.fst).Nodup) (p : Str) :
    lookupFile
        (merge_directories source (merge_directories source target true) true) p =
      lookupFile (merge_directories source target true) p := by
  rw [merge_lookup_characterization hnd, merge_lookup_characterization hnd]
  cases hs : lookupFile source p with
  | none => rfl
  | some c =>
    simp only
    by_cases h1 : shouldCopyFile p (lookupFile target p).isSome true
    · -- first run copied: the target now holds exactly the source content,
      -- so a second copy (or skip) changes nothing
      rw [h1]
      simp only [if_true, Option.isSome_some]
      by_cases h2 : shouldCopyFile p true true
      · rw [h2]; simp
      · rw [Bool.eq_false_iff.mpr h2]; simp
    · -- first run skipped: the existence bit is unchanged, so the second
      -- run takes the same decision and skips again
      rw [Bool.eq_false_iff.mpr h1]
      simp only [Bool.false_eq_true, if_false]
      rw [Bool.eq_false_iff.mpr h1]
      simp

/-- C7 witness: two update-mode merges of a concrete source over a
concrete target agree at a path of each rule class. -/
theorem merge_update_mode_idempotent_witness :
    (([("CLAUDE.md".toList, "# t".toList), ("agents/a.md".toList, "A".toList),
       ("notes.txt".toList, "N".toList)] : FileTree).map Prod.fst).Nodup ∧
    lookupFile
        (merge_directories
          [("CLAUDE.md".toList, "# t".toList), ("agents/a.md".toList, "A".toList),
           ("notes.txt".toList, "N".toList)]
          (merge_directories
            [("CLAUDE.md".toList, "# t".toList), ("agents/a.md".toList, "A".toList),
             ("notes.txt".toList, "N".toList)]
            [("CLAUDE.md".toList, "# c".toList)] true) true)
        "agents/a.md".toList =
      lookupFile
        (merge_directories
          [("CLAUDE.md".toList, "# t".toList), ("agents/a.md".toList, "A".toList),
           ("notes.txt".toList, "N".toList)]
          [("CLAUDE.md".toList, "# c".toList)] true)
        "agents/a.md".toList :=
  ⟨by decide,
   merge_update_mode_idempotent
     [("CLAUDE.md".toList, "# t".toList), ("agents/a.md".toList, "A".toList),
      ("notes.txt".toList, "N".toList)]
     [("CLAUDE.md".toList, "# c".toList)] (by decide) "agents/a.md".toList⟩

end CCPM.DirectoryMerger

/-! ## CCPMInstaller (`src/ccpm/core/installer.py`) -/

namespace CCPM.Installer

open CCPM

/-- Python exceptions; `raise A from B` is modelled by nesting `B` as the
cause inside `A`. -/
inductive PyError where
  | runtimeError : Str → Option PyError → PyError
  | jsonDecodeError : Str → PyError
  | valueError : Str → PyError
  deriving Repr

/-! ### `_update_gitignore` -/

/-- Python `str.splitlines()` (restricted to `'\n'` terminators; the other
Unicode line terminators never occur in the gitignore entries handled
here): split on newlines, without a trailing empty piece. -/
def pySplitlines (s : Str) : List Str :=
  let pieces := splitOnChar '\n' s
  if pieces.getLast? = some [] then pieces.dropLast else pieces

/-- Python `"\n".join(lines)`. -/
def joinLines : List Str → Str
  | [] => []
  | [l] => l
  | l :: ls => l ++ '\n' :: joinLines ls

/-- The fixed entries `_update_gitignore` adds. -/
def entries_to_add : List Str :=
  [".ccpm_tracking.json".toList, ".ccpm_backup/".toList,
   ".claude/epics/".toList, ".claude/prds/".toList]

/-- The line-level loop of `_update_gitignore`: append each missing entry. -/
def addEntries (entries : List Str) (lines : List Str) : List Str :=
  entries.foldl (fun ls entry => if entry ∈ ls then ls else ls ++ [entry]) lines

/-- `CCPMInstaller._update_gitignore`, as a function from the previous
file content (`none` = file absent, modelled as the empty content the
Python code substitutes) to the newly written content:
`lines = content.splitlines() if content else []`, append each missing
entry, then write `"\n".join(lines) + "\n"`. -/
def update_gitignore (content : Option Str) : Str :=
  joinLines
    (addEntries entries_to_add
      (if content.getD [] = [] then [] else pySplitlines (content.getD []))) ++
    ['\n']

theorem joinLines_cons (l : Str) {ls : List Str} (h : ls ≠ []) :
    joinLines (l :: ls) = l ++ '\n' :: joinLines ls := by
  cases ls with
  | nil => exact absurd rfl h
  | cons x xs => rfl

theorem splitOnChar_joinLines {ls : List Str} (hne : ls ≠ [])
    (hmem : ∀ l ∈ ls, '\n' ∉ l) :
    splitOnChar '\n' (joinLines ls) = ls := by
  induction ls with
  | nil => exact absurd rfl hne
  | cons l ls ih =>
    cases ls with
    | nil =>
      show splitOnChar '\n' l = [l]
      exact splitOnChar_of_not_mem (hmem l (List.mem_cons_self _ _))
    | cons x xs =>
      rw [joinLines_cons l (by simp)]
      rw [splitOnChar_append_cons (hmem l (List.mem_cons_self _ _))]
      rw [ih (by simp) (fun y hy => hmem y (List.mem_cons_of_mem _ hy))]

theorem pySplitlines_joinLines {ls : List Str} (hne : ls ≠ [])
    (hmem : ∀ l ∈ ls, '\n' ∉ l) :
    pySplitlines (joinLines ls ++ ['\n']) = ls := by
  unfold pySplitlines
  rw [splitOnChar_concat, splitOnChar_joinLines hne hmem]
  simp

theorem mem_pySplitlines_no_newline {s : Str} {l : Str}
    (h : l ∈ pySplitlines s) : '\n' ∉ l := by
  unfold pySplitlines at h
  by_cases hlast : (splitOnChar '\n' s).getLast? = some ([] : Str)
  · rw [if_pos hlast] at h
    exact not_mem_of_mem_splitOnChar (List.dropLast_sublist _ |>.mem h)
  · rw [if_neg hlast] at h
    exact not_mem_of_mem_splitOnChar h

theorem self_isPrefix_addEntries (entries : List Str) (ls : List Str) :
    ls <+: addEntries entries ls := by
  induction entries generalizing ls with
  | nil => exact List.prefix_refl ls
  | cons e rest ih =>
    show ls <+: addEntries rest (if e ∈ ls then ls else ls ++ [e])
    by_cases h : e ∈ ls
    · rw [if_pos h]; exact ih ls
    · rw [if_neg h]
      exact (List.prefix_append ls [e]).trans (ih (ls ++ [e]))

theorem mem_addEntries_of_mem {x : Str} (entries : List Str) {ls : List Str}
    (h : x ∈ ls) : x ∈ addEntries entries ls :=
  (self_isPrefix_addEntries entries ls).subset h

theorem mem_addEntries_of_mem_entries {x : Str} {entries : List Str}
    (ls : List Str) (h : x ∈ entries) : x ∈ addEntries entries ls := by
  induction entries generalizing ls with
  | nil => cases h
  | cons e rest ih =>
    show x ∈ addEntries rest (if e ∈ ls then ls else ls ++ [e])
    rcases List.mem_cons.mp h with rfl | hx
    · by_cases hmem : x ∈ ls
      · exact mem_addEntries_of_mem rest (by rw [if_pos hmem]; exact hmem)
      · exact mem_addEntries_of_mem rest (by rw [if_neg hmem]; simp)
    · exact ih _ hx

theorem mem_of_mem_addEntries {x : Str} {entries : List Str} {ls : List Str}
    (h : x ∈ addEntries entries ls) : x ∈ ls ∨ x ∈ entries := by
  induction entries generalizing ls with
  | nil => exact Or.inl h
  | cons e rest ih =>
    have h' : x ∈ addEntries rest (if e ∈ ls then ls else ls ++ [e]) := h
    rcases ih h' with hm | hm
    · by_cases hel : e ∈ ls
      · rw [if_pos hel] at hm; exact Or.inl hm
      · rw [if_neg hel] at hm
        rcases List.mem_append.mp hm with hm | hm
        · exact Or.inl hm
        · simp only [List.mem_singleton] at hm
          exact Or.inr (by rw [hm]; exact List.mem_cons_self _ _)
    · exact Or.inr (List.mem_cons_of_mem _ hm)

theorem count_addEntries_le (entries : List Str) (ls : List Str) (x : Str) :
    (addEntries entries ls).count x ≤ max 1 (ls.count x) := by
  induction entries generalizing ls with
  | nil => exact le_max_of_le_right le_rfl
  | cons e rest ih =>
    show (addEntries rest (if e ∈ ls then ls else ls ++ [e])).count x ≤ _
    by_cases hel : e ∈ ls
    · rw [if_pos hel]; exact ih ls
    · rw [if_neg hel]
      refine (ih (ls ++ [e])).trans ?_
      by_cases hex : e = x
      · subst hex
        have : ls.count e = 0 := List.count_eq_zero.mpr hel
        simp [List.count_append, this]
      · have : (ls ++ [e]).count x = ls.count x := by
          simp [List.count_append, List.count_singleton', Ne.symm hex]
        rw [this]

theorem addEntries_of_all_mem {entries : List Str} {ls : List Str}
    (h : ∀ e ∈ entries, e ∈ ls) : addEntries entries ls = ls := by
  induction entries with
  | nil => rfl
  | cons e rest ih =>
    show addEntries rest (if e ∈ ls then ls else ls ++ [e]) = ls
    rw [if_pos (h e (List.mem_cons_self _ _))]
    exact ih (fun x hx => h x (List.mem_cons_of_mem _ hx))

theorem pySplitlines_nil : pySplitlines [] = [] := by decide

theorem update_gitignore_some (content : Str) :
    update_gitignore (some content) =
      joinLines (addEntries entries_to_add (pySplitlines content)) ++ ['\n'] := by
  unfold update_gitignore
  by_cases h : content = []
  · subst h; simp [pySplitlines_nil]
  · simp [Option.getD, h]

theorem addEntries_entries_ne_nil (ls : List Str) :
    addEntries entries_to_add ls ≠ [] := by
  intro h0
  have := mem_addEntries_of_mem_entries ls
    (show ".ccpm_tracking.json".toList ∈ entries_to_add by decide)
  rw [h0] at this
  cases this

theorem pySplitlines_update_gitignore (content : Str) :
    pySplitlines (update_gitignore (some content)) =
      addEntries entries_to_add (pySplitlines content) := by
  have hnonl : ∀ l ∈ addEntries entries_to_add (pySplitlines content),
      '\n' ∉ l := by
    intro l hl
    rcases mem_of_mem_addEntries hl with h | h
    · exact mem_pySplitlines_no_newline h
    · have hall : ∀ e ∈ entries_to_add, '\n' ∉ e := by decide
      exact hall l h
  rw [update_gitignore_some]
  exact pySplitlines_joinLines (addEntries_entries_ne_nil _) hnonl

/-- C9: the gitignore update keeps every pre-existing line, ensures each
of the fixed entries is present, never pushes an entry's multiplicity
above `max 1 (previous multiplicity)` (so no duplicates are introduced by
the update), and is idempotent: a second application rewrites the file
with identical content. -/
theorem gitignore_update_properties (content : Str) :
    (∀ l ∈ pySplitlines content,
      l ∈ pySplitlines (update_gitignore (some content))) ∧
    (∀ e ∈ entries_to_add,
      e ∈ pySplitlines (update_gitignore (some content))) ∧
    (∀ e ∈ entries_to_add,
      (pySplitlines (update_gitignore (some content))).count e ≤
        max 1 ((pySplitlines content).count e)) ∧
    update_gitignore (some (update_gitignore (some content))) =
      update_gitignore (some content) := by
  have hround := pySplitlines_update_gitignore content
  refine ⟨?_, ?_, ?_, ?_⟩
  · intro l hl
    rw [hround]
    exact mem_addEntries_of_mem _ hl
  · intro e he
    rw [hround]
    exact mem_addEntries_of_mem_entries _ he
  · intro e _
    rw [hround]
    exact count_addEntries_le _ _ e
  · have hne2 : update_gitignore (some content) ≠ [] := by
      rw [update_gitignore_some]
      simp
    rw [update_gitignore_some (update_gitignore (some content)), hround,
      addEntries_of_all_mem (fun e he => mem_addEntries_of_mem_entries _ he),
      update_gitignore_some content]

/-! ### Tracking manifest -/

/-- The tracking JSON document, modelled as a record of optional fields
(a field is `none` when the key is absent from the dict). -/
structure Tracking where
  version : Option Str := none
  installed_at : Option Str := none
  had_existing_claude : Option Bool := none
  ccpm_files : Option (List Str) := none
  ccpm_scaffolding_files : Option (List Str) := none
  user_content_dirs : Option (List Str) := none
  data_safety_version : Option Str := none
  last_updated : Option Str := none
  deriving Repr

/-- The on-disk state of the tracking manifest file. -/
inductive ManifestFile where
  | absent
  | unparseable (raw : Str)  -- file exists, content is not valid JSON
  | parsed (t : Tracking)    -- file exists, content parses to this dict
  deriving Repr

/-- `CCPMInstaller._load_tracking_file`: returns `{}` when the file is
absent, the parsed dict when it parses, and raises
`json.JSONDecodeError` when the content is not valid JSON. -/
def load_tracking_file : ManifestFile → Except PyError Tracking
  | .absent => .ok {}
  | .unparseable _ => .error (.jsonDecodeError "Expecting value: line 1 column 1 (char 0)".toList)
  | .parsed t => .ok t

/-- The scaffolding allowlist hard-coded in
`CCPMInstaller._create_tracking_file`. -/
def ccpm_scaffolding_files_list : List Str :=
  ["scripts/pm/".toList,            -- PM shell scripts
   "scripts/test-and-log.sh".toList, -- Test runner script
   "commands/pm/".toList,           -- PM command templates
   "settings.local.json".toList,    -- Template settings
   "context/".toList,               -- Context templates (if exists)
   "CLAUDE.md".toList]              -- Project instructions

/-- The informational user-content directory list from
`_create_tracking_file`. -/
def user_content_dirs_list : List Str :=
  ["agents".toList, "prds".toList, "epics".toList, "context/custom".toList]

/-- `CCPMInstaller._create_tracking_file`'s tracking payload. -/
def create_tracking_data (had_existing : Bool) (now : Str) : Tracking :=
  { version := some "0.1.0".toList
    installed_at := some now
    had_existing_claude := some had_existing
    ccpm_files := some []
    ccpm_scaffolding_files := some ccpm_scaffolding_files_list
    user_content_dirs := some user_content_dirs_list
    data_safety_version := some "1.0".toList
    last_updated := none }

/-- The user-content directory names used by the legacy-tracking filter
in `uninstall`. -/
def legacy_user_dirs : List Str := ["agents".toList, "prds".toList, "epics".toList]

/-- The scaffolding list `uninstall` derives from a loaded tracking dict:
the new `ccpm_scaffolding_files` field when present, otherwise the legacy
`ccpm_files` list filtered to drop anything containing a user-content
directory name. -/
def scaffolding_from_tracking (t : Tracking) : List Str :=
  match t.ccpm_scaffolding_files with
  | some fs => fs
  | none =>
    (t.ccpm_files.getD []).filter
      (fun f => !(legacy_user_dirs.any (fun d => isSubstr d f)))

/-! ### Uninstall -/

/-- The scaffolding-removal loop of `uninstall` (installer.py lines
302-319): walk the tracked paths, skip anything starting with
`context`, remove the rest (whole subtree for directories, single file
otherwise) and count removals.  Per-file removal errors are caught and
skipped in Python; the pure model's removals always succeed. -/
def removeScaffolding (tree : FileTree) (files : List Str) : FileTree × Nat :=
  files.foldl
    (fun acc fp =>
      if isPrefix "context".toList fp then acc  -- skip context dir entirely
      else if existsPath acc.1 fp then
        if isDirPath acc.1 fp then (rmtreePath acc.1 fp, acc.2 + 1)
        else (unlinkPath acc.1 fp, acc.2 + 1)
      else acc)
    (tree, 0)

/-- The user-content glob set of `_is_directory_empty_of_user_content`:
`Path.rglob(pat)` matches a file whose basename fits `pat` at any depth
(plus the two nested epic/task patterns needing depth ≥ 2). -/
def matchesUserContentPattern (rest : Str) : Bool :=
  let name := (rest.reverse.takeWhile (fun c => !decide (c = '/'))).reverse
  isSuffix ".md".toList name || isSuffix ".py".toList name ||
  isSuffix ".json".toList name || isSuffix ".txt".toList name ||
  (rest.contains '/' && decide (name = "epic.md".toList)) ||
  (rest.contains '/' && isPrefix "task_".toList name && isSuffix ".md".toList name)

/-- `CCPMInstaller._is_directory_empty_of_user_content`. -/
def isDirectoryEmptyOfUserContent (tree : FileTree) (d : Str) : Bool :=
  if !existsPath tree d || !isDirPath tree d then true
  else (subtreeEntries tree d).all (fun e => !matchesUserContentPattern e.1)

/-- The known-template file set of `_is_template_only_directory`. -/
def template_only_files : List Str :=
  ["agents/code-analyzer.md".toList, "agents/file-analyzer.md".toList,
   "agents/parallel-worker.md".toList, "agents/test-runner.md".toList,
   "context/README.md".toList, "prds/.gitkeep".toList, "epics/.gitkeep".toList,
   "commands/code-rabbit.md".toList, "commands/prompt.md".toList,
   "commands/re-init.md".toList, "commands/context/create.md".toList,
   "commands/context/update.md".toList, "commands/context/prime.md".toList,
   "commands/testing/run.md".toList, "commands/testing/prime.md".toList,
   "rules/worktree-operations.md".toList, "rules/standard-patterns.md".toList,
   "rules/github-operations.md".toList, "rules/frontmatter-operations.md".toList,
   "rules/datetime.md".toList, "rules/branch-management.md".toList,
   "rules/iteration-patterns.md".toList, "rules/project-structure.md".toList,
   "rules/tracking-operations.md".toList, "rules/code-generation.md".toList,
   "rules/coordination-operations.md".toList, "rules/agent-coordination.md".toList,
   "rules/branch-operations.md".toList, "rules/strip-frontmatter.md".toList,
   "rules/test-execution.md".toList, "rules/use-ast-grep.md".toList,
   "scripts/utils.sh".toList]

/-- `CCPMInstaller._is_template_only_directory`: every file under the
directory (keyed relative to `.claude`) is a known template file. -/
def isTemplateOnlyDirectory (tree : FileTree) (d : Str) : Bool :=
  if !existsPath tree d || !isDirPath tree d then true
  else tree.all (fun e =>
    !isPrefix (d ++ ['/']) e.1 || template_only_files.contains e.1)

/-- The template-only cleanup pass `uninstall` runs for clean installs
(`had_existing_claude` false). -/
def cleanTemplateDirs (tree : FileTree) : FileTree × Nat :=
  (["agents".toList, "prds".toList, "epics".toList, "commands".toList,
    "rules".toList, "scripts".toList, "context".toList]).foldl
    (fun acc d =>
      if existsPath acc.1 d && isTemplateOnlyDirectory acc.1 d then
        (rmtreePath acc.1 d, acc.2 + 1)
      else acc)
    (tree, 0)

/-- The small known-template file set of `_is_template_file`. -/
def template_files_small : List Str :=
  ["settings.local.json".toList, "CLAUDE.md".toList,
   "agents/code-analyzer.md".toList, "agents/file-analyzer.md".toList,
   "agents/parallel-worker.md".toList, "agents/test-runner.md".toList,
   "context/README.md".toList, "prds/.gitkeep".toList, "epics/.gitkeep".toList]

/-- `CCPMInstaller._is_template_file` for a top-level item of `.claude`. -/
def isTemplateFileEntry (tree : FileTree) (name : Str) : Bool :=
  if template_files_small.contains name then true
  else if isDirPath tree name then isTemplateOnlyDirectory tree name
  else false

/-- First path component of a key (the `.claude` child it belongs to). -/
def firstComp (k : Str) : Str := k.takeWhile (fun c => !decide (c = '/'))

/-- The end-of-uninstall `.claude` cleanup (installer.py lines 351-378):
remove the directory when empty, or when only `settings.local.json`
remains. -/
def emptyDirCleanup (tree : FileTree) : Option FileTree :=
  if tree = [] then none
  else if tree.all (fun e => decide (e.1 = "settings.local.json".toList)) then none
  else some tree

/-- `CCPMInstaller._safe_uninstall_without_tracking` (conservative mode).
Console output is ignored; per-file errors cannot occur in the pure
model. -/
def safeUninstallWithoutTracking (tree : FileTree) : Option FileTree × Nat :=
  -- only remove files we know are definitely CCPM scaffolding
  let step1 :=
    (["scripts/test-and-log.sh".toList, "settings.local.json".toList,
      "CLAUDE.md".toList]).foldl
      (fun acc fp =>
        if existsPath acc.1 fp then
          if isDirPath acc.1 fp then
            if isDirectoryEmptyOfUserContent acc.1 fp then
              (rmtreePath acc.1 fp, acc.2 + 1)
            else acc
          else (unlinkPath acc.1 fp, acc.2 + 1)
        else acc)
      (tree, 0)
  -- carefully handle the scripts/pm directory
  let step2 :=
    if existsPath step1.1 "scripts".toList then
      if existsPath step1.1 "scripts/pm".toList &&
          isDirectoryEmptyOfUserContent step1.1 "scripts/pm".toList then
        (rmtreePath step1.1 "scripts/pm".toList, step1.2 + 1)
      else step1
    else step1
  -- remove .claude when empty or template-only
  let tops := (step2.1.map (fun e => firstComp e.1)).dedup
  if step2.1 = [] then (none, step2.2)
  else if tops.all (fun n => isTemplateFileEntry step2.1 n) then (none, step2.2)
  else (some step2.1, step2.2)

/-- The state `uninstall` operates on: the `.claude` tree (`none` when
the directory is missing), the manifest file, the `.claude.backup`
directory and the `CCPM_UNINSTALL_SCAFFOLDING` override consumed by
`safe_input`. -/
structure UninstallState where
  claude : Option FileTree
  manifest : ManifestFile
  backupDir : Option FileTree
  forceScaffolding : Option Str
  deriving Repr

/-- `safe_input` in the non-interactive environments the claims address:
the forced value when set, otherwise the default. -/
def safeInput (dflt : Str) (forceValue : Option Str) : Str :=
  forceValue.getD dflt

/-- Python `str.lower()` (ASCII relevant range). -/
def strLower (s : Str) : Str := s.map Char.toLower

/-- `CCPMInstaller.uninstall`.  Returns the final state and the removed
count, or the exception it raises.  `_detect_user_content` only prints
and is omitted. -/
def uninstall (s : UninstallState) : Except PyError (UninstallState × Nat) :=
  match s.claude with
  | none => .ok (s, 0)  -- "No CCPM installation found."
  | some tree =>
    match s.manifest with
    | .absent =>
      -- no tracking file: safe mode behind a prompt
      let response := safeInput "N".toList s.forceScaffolding
      if strLower response ≠ "y".toList then .ok (s, 0)  -- cancelled
      else
        let (claude', n) := safeUninstallWithoutTracking tree
        .ok ({ s with claude := claude' }, n)
    | m =>
      match load_tracking_file m with
      | .error e => .error e  -- json.JSONDecodeError propagates
      | .ok t =>
        let scaffolding := scaffolding_from_tracking t
        let (tree1, n1) := removeScaffolding tree scaffolding
        let (tree2, n2) :=
          if !(t.had_existing_claude.getD true) then cleanTemplateDirs tree1
          else (tree1, 0)
        let claude1 := emptyDirCleanup tree2
        match s.backupDir with
        | some b =>
          -- restore previous .claude from .claude.backup
          .ok ({ claude := some b, manifest := .absent, backupDir := none,
                 forceScaffolding := s.forceScaffolding }, n1 + n2)
        | none =>
          .ok ({ claude := claude1, manifest := .absent, backupDir := none,
                 forceScaffolding := s.forceScaffolding }, n1 + n2)

/-! ### Update -/

/-- The outcome of `CCPMInstaller.update`: the error raised (if any) and
the final on-disk state. -/
structure UpdateOutcome where
  error : Option PyError
  claude : Option FileTree
  manifest : ManifestFile
  deriving Repr

/-- `CCPMInstaller.update`, from the backup step onward.  The merge step
is passed in as a function so that environment-induced merge failures
(`except Exception as merge_exc`) are modelled: it receives the freshly
cloned template and the current tree and either returns the merged tree
or raises.  On merge failure the pre-update backup (an exact copy of the
tree, `BackupManager` round-trip) is restored and a `RuntimeError` chain
wrapping the merge exception is raised; on success `last_updated` is
advanced when the tracking file exists and parses, with tracking
failures only warned about. -/
def update (claude : Option FileTree) (manifest : ManifestFile)
    (template : FileTree)
    (mergeStep : FileTree → FileTree → Except PyError FileTree)
    (now : Str) : UpdateOutcome :=
  match claude with
  | none =>
    -- "No CCPM installation found. Run 'ccpm setup .' first."
    { error := some (.runtimeError "CCPM not installed".toList none)
      claude := none, manifest := manifest }
  | some tree =>
    let backup := tree  -- self.backup.create_backup(self.claude_dir)
    match mergeStep template tree with
    | .error merge_exc =>
      -- inner handler: restore backup, raise RuntimeError from merge_exc;
      -- outer handler: restore again (same state), wrap in RuntimeError
      { error := some (.runtimeError "CCPM update failed".toList
          (some (.runtimeError
            "Update failed during merge, previous state restored".toList
            (some merge_exc))))
        claude := some backup, manifest := manifest }
    | .ok merged =>
      let manifest' :=
        match manifest with
        | .absent => manifest          -- tracking file missing: nothing to update
        | .unparseable _ => manifest   -- load raises; caught, warned, ignored
        | .parsed t => .parsed { t with last_updated := some now }
      { error := none, claude := some merged, manifest := manifest' }

/-! ### `_save_tracking_file` (write trace) -/

/-- Primitive filesystem effects of a manifest save. -/
inductive FsOp where
  | openTruncate : Str → FsOp        -- open(path, "w") truncates
  | writeData : Str → Str → FsOp     -- json.dump writes the document
  | rename : Str → Str → FsOp        -- os.rename / Path.replace
  deriving Repr, DecidableEq

def FsOp.isRename : FsOp → Bool
  | .rename _ _ => true
  | _ => false

/-- The effect trace of `CCPMInstaller._save_tracking_file`:
`with open(self.tracking_file, "w") as f: json.dump(data, f, indent=2)`
— a truncating open of the manifest path followed by the in-place
write.  No temporary file, no rename. -/
def save_tracking_trace (path doc : Str) : List FsOp :=
  [.openTruncate path, .writeData path doc]

/-- Modelled from the spec: the `saveManifest` behaviour §4.4 describes —
"writes atomically (write-temp-then-rename)": write the document to a
temporary sibling path and rename it over the manifest path. -/
def save_manifest_spec_trace (path tmpPath doc : Str) : List FsOp :=
  [.openTruncate tmpPath, .writeData tmpPath doc, .rename tmpPath path]

/-- Apply one filesystem effect to a tree. -/
def applyOp (fs : FileTree) : FsOp → FileTree
  | .openTruncate p => insertFile fs p []
  | .writeData p d => insertFile fs p ((lookupFile fs p).getD [] ++ d)
  | .rename src dst =>
    match lookupFile fs src with
    | some v => insertFile (unlinkPath fs src) dst v
    | none => fs

/-- Run a trace of effects. -/
def runOps (fs : FileTree) (ops : List FsOp) : FileTree :=
  ops.foldl applyOp fs

/-! ### Claim theorems -/

/-- C8: a legacy tracking entry containing a user-content directory name
is excluded from the scaffolding list used for deletion. -/
theorem legacy_entry_with_user_dir_excluded (t : Tracking) (f : Str)
    (hleg : t.ccpm_scaffolding_files = none)
    (huser : ∃ d ∈ legacy_user_dirs, isSubstr d f = true) :
    f ∉ scaffolding_from_tracking t := by
  unfold scaffolding_from_tracking
  rw [hleg]
  intro hmem
  have hkeep := (List.mem_filter.mp hmem).2
  obtain ⟨d, hd, hsub⟩ := huser
  have hany : legacy_user_dirs.any (fun d => isSubstr d f) = true :=
    List.any_eq_true.mpr ⟨d, hd, hsub⟩
  rw [hany] at hkeep
  cases hkeep

/-- C8 witness: a legacy manifest whose flat list contains `agents/`
never yields `agents/` in the safe-to-delete set. -/
theorem legacy_entry_with_user_dir_excluded_witness :
    ({ ccpm_files := some ["agents/".toList, "scripts/pm/".toList] } :
        Tracking).ccpm_scaffolding_files = none ∧
    (∃ d ∈ legacy_user_dirs, isSubstr d "agents/".toList = true) ∧
    "agents/".toList ∉ scaffolding_from_tracking
      { ccpm_files := some ["agents/".toList, "scripts/pm/".toList] } :=
  ⟨rfl, by decide,
    legacy_entry_with_user_dir_excluded
      { ccpm_files := some ["agents/".toList, "scripts/pm/".toList] }
      "agents/".toList rfl (by decide)⟩

/-- A removal-loop entry not starting with `context` can touch neither
the path of a key starting with `context` nor its subtree. -/
theorem context_key_untouched {fp k : Str}
    (hk : isPrefix "context".toList k = true)
    (hfp : isPrefix "context".toList fp = false) :
    isPrefix (fp ++ ['/']) k = false ∧ k ≠ fp := by
  constructor
  · by_contra hcontra
    rw [Bool.not_eq_false] at hcontra
    have h1 : fp ++ ['/'] <+: k := (isPrefix_iff_IsPrefix _ _).mp hcontra
    have h2 : "context".toList <+: k := (isPrefix_iff_IsPrefix _ _).mp hk
    rcases List.prefix_or_prefix_of_prefix h1 h2 with hcase | hcase
    · -- fp ++ ['/'] would put a slash inside "context"
      have : '/' ∈ "context".toList := hcase.subset (by simp)
      exact absurd this (by decide)
    · -- "context" a prefix of fp ++ ['/'] forces fp to start with context
      obtain ⟨t, ht⟩ := hcase
      rcases List.eq_nil_or_concat t with rfl | ⟨t', c, rfl⟩
      · have : '/' ∈ "context".toList := by
          rw [List.append_nil] at ht
          rw [ht]; simp
        exact absurd this (by decide)
      · rw [List.concat_eq_append, ← List.append_assoc] at ht
        have hinj := List.append_inj' ht rfl
        have hfp_eq : "context".toList ++ t' = fp := hinj.1
        have : isPrefix "context".toList fp = true := by
          rw [isPrefix_iff]
          exact ⟨t', hfp_eq.symm⟩
        rw [this] at hfp
        cases hfp
  · rintro rfl
    rw [hk] at hfp
    cases hfp

theorem removeScaffolding_preserves_context_aux
    (files : List Str) (tree : FileTree) (n : Nat) (k : Str)
    (hk : isPrefix "context/".toList k = true) :
    lookupFile
      (files.foldl
        (fun acc fp =>
          if isPrefix "context".toList fp then acc
          else if existsPath acc.1 fp then
            if isDirPath acc.1 fp then (rmtreePath acc.1 fp, acc.2 + 1)
            else (unlinkPath acc.1 fp, acc.2 + 1)
          else acc)
        (tree, n)).1 k = lookupFile tree k := by
  have hk' : isPrefix "context".toList k = true :=
    isPrefix_trans (by decide : isPrefix "context".toList "context/".toList = true) hk
  induction files generalizing tree n with
  | nil => rfl
  | cons fp rest ih =>
    simp only [List.foldl_cons]
    by_cases hskip : isPrefix "context".toList fp = true
    · rw [if_pos hskip]
      exact ih tree n
    · have hfp : isPrefix "context".toList fp = false := by
        rw [Bool.eq_false_iff]; exact hskip
      obtain ⟨hnp, hne⟩ := context_key_untouched hk' hfp
      rw [if_neg (by rw [hfp]; exact Bool.false_ne_true)]
      by_cases hex : existsPath tree fp = true
      · rw [if_pos hex]
        by_cases hdir : isDirPath tree fp = true
        · rw [if_pos hdir]
          rw [ih (rmtreePath tree fp) (n + 1)]
          exact lookupFile_rmtreePath_other hnp
        · rw [if_neg hdir]
          rw [ih (unlinkPath tree fp) (n + 1)]
          exact lookupFile_unlinkPath_other hne
      · rw [if_neg hex]
        exact ih tree n

/-- C10: the `uninstall` removal loop skips every tracked path starting
with `context`, so no file under the context directory is deleted by the
loop — even though `context/` is recorded in the scaffolding list
`_create_tracking_file` writes. -/
theorem context_dir_survives_removal_loop :
    "context/".toList ∈ ccpm_scaffolding_files_list ∧
    ∀ (tree : FileTree) (files : List Str) (k : Str),
      isPrefix "context/".toList k = true →
      lookupFile (removeScaffolding tree files).1 k = lookupFile tree k := by
  refine ⟨by decide, ?_⟩
  intro tree files k hk
  exact removeScaffolding_preserves_context_aux files tree 0 k hk

/-- C10 witness: a file under `context/` survives a removal pass over the
full tracked scaffolding list. -/
theorem context_dir_survives_removal_loop_witness :
    isPrefix "context/".toList "context/notes.md".toList = true ∧
    lookupFile
        (removeScaffolding
          [("context/notes.md".toList, "user notes".toList),
           ("CLAUDE.md".toList, "instr".toList)]
          ccpm_scaffolding_files_list).1
        "context/notes.md".toList =
      lookupFile
        [("context/notes.md".toList, "user notes".toList),
         ("CLAUDE.md".toList, "instr".toList)]
        "context/notes.md".toList :=
  ⟨by decide,
    context_dir_survives_removal_loop.2
      [("context/notes.md".toList, "user notes".toList),
       ("CLAUDE.md".toList, "instr".toList)]
      ccpm_scaffolding_files_list
      "context/notes.md".toList (by decide)⟩

/-- C1 counterexample: with an existing tracking file whose content is
not JSON, `uninstall` raises the JSON decode error even though the
non-interactive force value is set; the conservative fallback is not
reached. -/
theorem uninstall_corrupt_manifest_counterexample :
    uninstall
        { claude := some [("CLAUDE.md".toList, "# x".toList)],
          manifest := .unparseable "not json".toList,
          backupDir := none,
          forceScaffolding := some "y".toList } =
      .error (.jsonDecodeError
        "Expecting value: line 1 column 1 (char 0)".toList) := rfl

/-- C1 amended: loading an existing but unparseable tracking manifest
makes `uninstall` raise the JSON parse error — the conservative fallback
is not triggered by corruption; it runs (and completes without raising)
only when the manifest file is absent and the force value is set. -/
theorem uninstall_corrupt_manifest_raises (tree : FileTree) (raw : Str)
    (bd : Option FileTree) (fv : Option Str) :
    uninstall
        { claude := some tree, manifest := .unparseable raw,
          backupDir := bd, forceScaffolding := fv } =
      .error (.jsonDecodeError
        "Expecting value: line 1 column 1 (char 0)".toList) ∧
    ∃ r, uninstall
        { claude := some tree, manifest := .absent,
          backupDir := bd, forceScaffolding := some "y".toList } = .ok r := by
  constructor
  · rfl
  · have hcond : ¬(strLower (safeInput "N".toList (some "y".toList)) ≠
        "y".toList) := by decide
    rcases hsu : safeUninstallWithoutTracking tree with ⟨c', n⟩
    refine ⟨({ claude := c', manifest := .absent, backupDir := bd,
               forceScaffolding := some "y".toList }, n), ?_⟩
    unfold uninstall
    simp only [if_neg hcond, hsu]

/-- C5: if the merge step of `update` raises, the pre-update backup is
restored (the tree is exactly the pre-update tree), the manifest — and
with it `last_updated` — is untouched, and a `RuntimeError` chain
wrapping the original merge exception is raised. -/
theorem update_merge_failure_restores_and_reraises
    (tree : FileTree) (manifest : ManifestFile) (template : FileTree)
    (mergeStep : FileTree → FileTree → Except PyError FileTree)
    (now : Str) (merge_exc : PyError)
    (hfail : mergeStep template tree = .error merge_exc) :
    update (some tree) manifest template mergeStep now =
      { error := some (.runtimeError "CCPM update failed".toList
          (some (.runtimeError
            "Update failed during merge, previous state restored".toList
            (some merge_exc))))
        claude := some tree
        manifest := manifest } := by
  simp only [update]
  rw [hfail]

/-- C5 witness: a concrete failing merge leaves a concrete state intact
and surfaces the wrapped failure. -/
theorem update_merge_failure_restores_and_reraises_witness :
    (fun (_ : FileTree) (_ : FileTree) =>
        (.error (.valueError "boom".toList) : Except PyError FileTree))
      [("commands/pm/x.md".toList, "new".toList)]
      [("CLAUDE.md".toList, "mine".toList)] =
      .error (.valueError "boom".toList) ∧
    update (some [("CLAUDE.md".toList, "mine".toList)])
        (.parsed { last_updated := some "2020".toList })
        [("commands/pm/x.md".toList, "new".toList)]
        (fun _ _ => .error (.valueError "boom".toList))
        "2024".toList =
      { error := some (.runtimeError "CCPM update failed".toList
          (some (.runtimeError
            "Update failed during merge, previous state restored".toList
            (some (.valueError "boom".toList)))))
        claude := some [("CLAUDE.md".toList, "mine".toList)]
        manifest := .parsed { last_updated := some "2020".toList } } :=
  ⟨rfl,
    update_merge_failure_restores_and_reraises
      [("CLAUDE.md".toList, "mine".toList)]
      (.parsed { last_updated := some "2020".toList })
      [("commands/pm/x.md".toList, "new".toList)]
      (fun _ _ => .error (.valueError "boom".toList))
      "2024".toList (.valueError "boom".toList) rfl⟩

/-- C3 counterexample: the manifest save trace contains no rename at all
(unlike the write-temp-then-rename trace the claim describes), and after
its first step the manifest path holds a truncated (half-written)
document: neither the old manifest nor the new one. -/
theorem save_tracking_not_atomic_counterexample :
    ((save_tracking_trace ".ccpm_tracking.json".toList "\x7b\x7d".toList).all
        (fun op => !op.isRename)) = true ∧
    ((save_manifest_spec_trace ".ccpm_tracking.json".toList
        ".ccpm_tracking.json.tmp".toList "\x7b\x7d".toList).any
        (fun op => op.isRename)) = true ∧
    lookupFile
        (runOps [(".ccpm_tracking.json".toList, "old doc".toList)]
          [FsOp.openTruncate ".ccpm_tracking.json".toList])
        ".ccpm_tracking.json".toList = some [] ∧
    (some ([] : Str) ≠ some "old doc".toList ∧
      some ([] : Str) ≠ some "\x7b\x7d".toList) := by
  refine ⟨rfl, rfl, ?_, by decide⟩
  simp [runOps, applyOp]

/-- C3 amended: `_save_tracking_file` is not atomic — it truncates the
manifest path in place and then writes the document there, with no
temporary file and no rename; between the truncating open and the
completed write the manifest path holds an empty document, and only
after the final write does it hold the serialized manifest. -/
theorem save_tracking_writes_in_place (path doc : Str) (fs : FileTree) :
    (save_tracking_trace path doc).all (fun op => !op.isRename) = true ∧
    lookupFile (runOps fs [FsOp.openTruncate path]) path = some [] ∧
    lookupFile (runOps fs (save_tracking_trace path doc)) path = some doc := by
  refine ⟨rfl, ?_, ?_⟩
  · simp [runOps, applyOp]
  · simp [runOps, save_tracking_trace, applyOp, lookupFile_insertFile_self]

end CCPM.Installer

/-! ## BackupManager (`src/ccpm/utils/backup.py`) -/

namespace CCPM.BackupManager

open CCPM
open CCPM.Installer (PyError)

/-- `BackupManager.BACKUP_DIR`. -/
def BACKUP_DIR : Str := ".ccpm_backup".toList

/-- `Path.name`: the final path component. -/
def basename (p : Str) : Str :=
  (p.reverse.takeWhile (fun c => !decide (c = '/'))).reverse

/-- Write a batch of files in order (Python copies one file after the
other, later writes winning). -/
def writeFiles (fs : FileTree) (new : FileTree) : FileTree :=
  new.foldl (fun acc e => insertFile acc e.1 e.2) fs

/-- The metadata sidecar document (source path, creation time, type);
its exact serialization is irrelevant to the claims. -/
def metadataDoc (source ts : Str) (isDir : Bool) : Str :=
  "source=".toList ++ source ++ ";created_at=".toList ++ ts ++
    (if isDir then ";type=directory".toList else ";type=file".toList)

/-- `BackupManager.create_backup`: raises when the source is missing,
deep-copies the source tree (or single file) to
`.ccpm_backup/{name}_{timestamp}` and writes the metadata sidecar next to
it.  `shutil.copytree` refuses an existing destination.  Returns the new
filesystem and the backup path. -/
def create_backup (fs : FileTree) (source : Str) (ts : Str) :
    Except PyError (FileTree × Str) :=
  if !existsPath fs source then
    .error (.valueError ("Source does not exist: ".toList ++ source))
  else
    let backupName := basename source ++ "_".toList ++ ts
    let backupPath := BACKUP_DIR ++ '/' :: backupName
    let metaKey := BACKUP_DIR ++ '/' :: (backupName ++ ".json".toList)
    if isDirPath fs source then
      if existsPath fs backupPath then
        .error (.valueError ("copytree destination exists: ".toList ++ backupPath))
      else
        let payload := (subtreeEntries fs source).map
          (fun e => (backupPath ++ '/' :: e.1, e.2))
        .ok (insertFile (writeFiles fs payload) metaKey
              (metadataDoc source ts true), backupPath)
    else
      -- single file: shutil.copy2 overwrites silently
      .ok (insertFile
            (insertFile fs backupPath ((lookupFile fs source).getD []))
            metaKey (metadataDoc source ts false), backupPath)

/-- `BackupManager.restore_backup`: raises when the backup is missing,
removes whatever is at the target (recursive delete for a directory,
unlink for a file), then deep-copies the backup payload into place. -/
def restore_backup (fs : FileTree) (backupPath target : Str) :
    Except PyError FileTree :=
  if !existsPath fs backupPath then
    .error (.valueError ("Backup does not exist: ".toList ++ backupPath))
  else
    let fs1 :=
      if existsPath fs target then
        if isDirPath fs target then rmtreePath fs target
        else unlinkPath fs target
      else fs
    if isDirPath fs1 backupPath then
      .ok (writeFiles fs1
        ((subtreeEntries fs1 backupPath).map
          (fun e => (target ++ '/' :: e.1, e.2))))
    else
      .ok (insertFile fs1 target ((lookupFile fs1 backupPath).getD []))

theorem isPrefix_false_of_longer {p s : Str} (h : s.length < p.length) :
    isPrefix p s = false := by
  by_contra hc
  rw [Bool.not_eq_false, isPrefix_iff] at hc
  obtain ⟨t, rfl⟩ := hc
  simp at h

theorem isPrefix_slash_self (p : Str) : isPrefix (p ++ ['/']) p = false :=
  isPrefix_false_of_longer (by simp)

/-- If `a ++ "/"` is a prefix of `b ++ "/"`, either the two directories
agree or `a ++ "/"` already fits inside `b`. -/
theorem append_slash_prefix {a b : Str}
    (h : (a ++ ['/']) <+: (b ++ ['/'])) : a = b ∨ (a ++ ['/']) <+: b := by
  obtain ⟨t, ht⟩ := h
  rcases List.eq_nil_or_concat t with rfl | ⟨t', c, rfl⟩
  · left
    rw [List.append_nil] at ht
    exact (List.append_inj' ht rfl).1
  · right
    rw [List.concat_eq_append, ← List.append_assoc] at ht
    exact ⟨t', (List.append_inj' ht rfl).1⟩

/-- Position of one directory relative to another, read off a common
key: if `a ++ "/"` prefixes a key below `b`, then `a` sits inside `b`,
equals `b`, or contains `b`. -/
theorem slash_prefix_cases {a b x : Str}
    (h : isPrefix (a ++ ['/']) (b ++ '/' :: x) = true) :
    isPrefix (a ++ ['/']) b = true ∨ a = b ∨ isPrefix (b ++ ['/']) a = true := by
  have h1 : (a ++ ['/']) <+: (b ++ ['/']) ++ x := by
    have hx : b ++ '/' :: x = (b ++ ['/']) ++ x := by simp
    rw [isPrefix_iff_IsPrefix, hx] at h
    exact h
  rcases List.prefix_or_prefix_of_prefix h1 (List.prefix_append _ x) with hc | hc
  · rcases append_slash_prefix hc with rfl | h2
    · exact Or.inr (Or.inl rfl)
    · exact Or.inl ((isPrefix_iff_IsPrefix _ _).mpr h2)
  · rcases append_slash_prefix hc with heq | h2
    · exact Or.inr (Or.inl heq.symm)
    · exact Or.inr (Or.inr ((isPrefix_iff_IsPrefix _ _).mpr h2))

/-- Two directories neither of which contains the other: keys below one
are never below the other. -/
theorem not_under_of_disjoint {a b : Str} (x : Str)
    (h1 : isPrefix (a ++ ['/']) b = false) (h2 : a ≠ b)
    (h3 : isPrefix (b ++ ['/']) a = false) :
    isPrefix (a ++ ['/']) (b ++ '/' :: x) = false := by
  by_contra hc
  rw [Bool.not_eq_false] at hc
  rcases slash_prefix_cases hc with hcase | hcase | hcase
  · rw [hcase] at h1; cases h1
  · exact h2 hcase
  · rw [hcase] at h3; cases h3

/-- A key with prefix `p ++ "/"` is determined by its remainder. -/
theorem key_eq_of_isPrefix {p k : Str} (h : isPrefix (p ++ ['/']) k = true) :
    k = p ++ '/' :: k.drop (p.length + 1) := by
  obtain ⟨t, rfl⟩ := (isPrefix_iff _ _).mp h
  have hdrop : ((p ++ ['/']) ++ t).drop (p.length + 1) = t := by
    rw [List.drop_append_eq_append_drop]
    simp
  rw [hdrop]
  simp

theorem insertFile_keys_nodup {fs : FileTree} (hnd : (fs.map Prod.fst).Nodup)
    (k v : Str) : ((insertFile fs k v).map Prod.fst).Nodup := by
  unfold insertFile
  rw [List.map_append, List.nodup_append]
  refine ⟨?_, by simp, ?_⟩
  · exact (List.Sublist.map Prod.fst (List.filter_sublist fs)).nodup hnd
  · intro x hx
    simp only [List.map_cons, List.map_nil, List.mem_singleton]
    rintro rfl
    obtain ⟨e, he, rfl⟩ := List.mem_map.mp hx
    have := List.of_mem_filter he
    simp at this

theorem writeFiles_keys_nodup {fs : FileTree} (hnd : (fs.map Prod.fst).Nodup)
    (new : FileTree) : ((writeFiles fs new).map Prod.fst).Nodup := by
  induction new generalizing fs with
  | nil => exact hnd
  | cons e rest ih => exact ih (insertFile_keys_nodup hnd e.1 e.2)

theorem filter_keys_nodup {fs : FileTree} (hnd : (fs.map Prod.fst).Nodup)
    (pred : Str × Str → Bool) : ((fs.filter pred).map Prod.fst).Nodup :=
  (List.Sublist.map Prod.fst (List.filter_sublist fs)).nodup hnd

/-- Keys of the relative subtree listing came from keys of the tree. -/
theorem mem_keys_of_mem_subtree_keys {fs : FileTree} {p x : Str}
    (h : x ∈ (subtreeEntries fs p).map Prod.fst) :
    (p ++ '/' :: x) ∈ fs.map Prod.fst := by
  induction fs with
  | nil => cases h
  | cons e fs ih =>
    obtain ⟨k, v⟩ := e
    unfold subtreeEntries at h
    by_cases hpre : isPrefix (p ++ ['/']) k = true
    · simp only [List.filterMap_cons, hpre, if_true, List.map_cons,
        List.mem_cons] at h
      rcases h with rfl | h
      · have := key_eq_of_isPrefix hpre
        simp only [List.map_cons, List.mem_cons]
        exact Or.inl this.symm
      · exact List.mem_cons_of_mem _ (ih h)
    · simp only [List.filterMap_cons, hpre, if_false] at h
      exact List.mem_cons_of_mem _ (ih h)

theorem subtreeEntries_keys_nodup {fs : FileTree}
    (hnd : (fs.map Prod.fst).Nodup) (p : Str) :
    ((subtreeEntries fs p).map Prod.fst).Nodup := by
  induction fs with
  | nil => exact List.nodup_nil
  | cons e fs ih =>
    obtain ⟨k, v⟩ := e
    simp only [List.map_cons, List.nodup_cons] at hnd
    obtain ⟨hk_not, hnd'⟩ := hnd
    unfold subtreeEntries
    by_cases hpre : isPrefix (p ++ ['/']) k = true
    · simp only [List.filterMap_cons, hpre, if_true, List.map_cons,
        List.nodup_cons]
      refine ⟨?_, ih hnd'⟩
      intro hmem
      exact hk_not (by
        have := mem_keys_of_mem_subtree_keys hmem
        rwa [← key_eq_of_isPrefix hpre] at this)
    · simp only [List.filterMap_cons, hpre, if_false]
      exact ih hnd'

/-- Lookup through a batch write with distinct keys: the batch's binding
wins, otherwise the old tree answers. -/
theorem lookupFile_writeFiles {new : FileTree}
    (hnd : (new.map Prod.fst).Nodup) (fs : FileTree) (k : Str) :
    lookupFile (writeFiles fs new) k =
      match lookupFile new k with
      | some v => some v
      | none => lookupFile fs k := by
  induction new generalizing fs with
  | nil => rfl
  | cons e rest ih =>
    obtain ⟨q, v⟩ := e
    simp only [List.map_cons, List.nodup_cons] at hnd
    obtain ⟨hq_not, hnd'⟩ := hnd
    show lookupFile (writeFiles (insertFile fs q v) rest) k = _
    rw [ih hnd']
    by_cases hqk : q = k
    · subst hqk
      have : lookupFile rest q = none := lookupFile_eq_none_of_not_mem hq_not
      rw [this]
      simp [lookupFile_insertFile_self]
    · rw [lookupFile_insertFile_ne _ _ _ _ hqk]
      simp [hqk]

/-- Lookup in a payload re-rooted under `pre`, at a key below `pre`. -/
theorem lookupFile_map_reroot (S : FileTree) (pre rest : Str) :
    lookupFile (S.map (fun e => (pre ++ '/' :: e.1, e.2)))
        (pre ++ '/' :: rest) = lookupFile S rest := by
  induction S with
  | nil => rfl
  | cons e S ih =>
    obtain ⟨r, v⟩ := e
    simp only [List.map_cons, lookupFile_cons]
    by_cases hr : r = rest
    · subst hr
      rw [if_pos rfl, if_pos rfl]
    · rw [if_neg hr, if_neg (fun hc => hr
        (List.cons_injective (List.append_cancel_left hc)))]
      exact ih

/-- Lookup in a payload re-rooted under `pre`, at a key not below `pre`. -/
theorem lookupFile_map_reroot_none (S : FileTree) {pre k : Str}
    (h : isPrefix (pre ++ ['/']) k = false) :
    lookupFile (S.map (fun e => (pre ++ '/' :: e.1, e.2))) k = none := by
  induction S with
  | nil => rfl
  | cons e S ih =>
    obtain ⟨r, v⟩ := e
    simp only [List.map_cons, lookupFile_cons]
    rw [if_neg, ih]
    rintro rfl
    have : isPrefix (pre ++ ['/']) (pre ++ '/' :: r) = true := by
      have hx : pre ++ '/' :: r = (pre ++ ['/']) ++ r := by simp
      rw [hx]
      exact isPrefix_append _ _
    rw [this] at h
    cases h

/-- Keys below a removed directory are gone. -/
theorem lookupFile_rmtreePath_under (fs : FileTree) (p rest : Str) :
    lookupFile (rmtreePath fs p) (p ++ '/' :: rest) = none := by
  unfold rmtreePath
  apply lookupFile_filter_none (fun x => !isPrefix (p ++ ['/']) x)
  have hx : p ++ '/' :: rest = (p ++ ['/']) ++ rest := by simp
  rw [hx, isPrefix_append]
  rfl

theorem reroot_keys_nodup {S : FileTree}
    (hnd : (S.map Prod.fst).Nodup) (pre : Str) :
    ((S.map (fun e => (pre ++ '/' :: e.1, e.2))).map Prod.fst).Nodup := by
  have heq : (S.map (fun e => (pre ++ '/' :: e.1, e.2))).map Prod.fst =
      (S.map Prod.fst).map (fun x => pre ++ '/' :: x) := by
    simp [Function.comp]
  rw [heq]
  exact hnd.map (fun x y h =>
    List.cons_injective (List.append_cancel_left h))

theorem existsPath_of_isDirPath {g : FileTree} {p : Str}
    (h : isDirPath g p = true) : existsPath g p = true := by
  unfold existsPath
  rw [Bool.or_eq_true]
  exact Or.inr h

theorem isDirPath_of_lookup_below {g : FileTree} {p r c : Str}
    (h : lookupFile g (p ++ '/' :: r) = some c) : isDirPath g p = true := by
  unfold isDirPath
  rw [← lookupFile_subtreeEntries] at h
  cases hS : subtreeEntries g p with
  | nil => rw [hS] at h; cases h
  | cons a l => simp

theorem of_existsPath_false {g : FileTree} {p : Str}
    (h : existsPath g p = false) :
    lookupFile g p = none ∧ subtreeEntries g p = [] := by
  unfold existsPath at h
  rw [Bool.or_eq_false_iff] at h
  constructor
  · exact Option.not_isSome_iff_eq_none.mp (by rw [h.1]; exact Bool.false_ne_true)
  · have := h.2
    rw [Bool.not_eq_false'] at this
    exact List.isEmpty_iff.mp this

theorem create_backup_dir_inv {fs : FileTree} {source ts : Str}
    {fs1 : FileTree} {bp : Str}
    (hdir : isDirPath fs source = true)
    (h : create_backup fs source ts = .ok (fs1, bp)) :
    bp = BACKUP_DIR ++ '/' :: (basename source ++ "_".toList ++ ts) ∧
    existsPath fs bp = false ∧
    fs1 = insertFile
      (writeFiles fs ((subtreeEntries fs source).map
        (fun e => (bp ++ '/' :: e.1, e.2))))
      (BACKUP_DIR ++ '/' :: ((basename source ++ "_".toList ++ ts) ++
        ".json".toList))
      (metadataDoc source ts true) := by
  have hex : existsPath fs source = true := existsPath_of_isDirPath hdir
  simp only [create_backup, hex, hdir, Bool.not_true, Bool.false_eq_true,
    if_false, if_true] at h
  split at h
  case isTrue hb => cases h
  case isFalse hb =>
    simp only [Except.ok.injEq, Prod.mk.injEq] at h
    obtain ⟨hfs1, hbp⟩ := h
    refine ⟨hbp.symm, ?_, ?_⟩
    · rw [← hbp]
      exact Bool.not_eq_true _ ▸ Bool.eq_false_iff.mpr hb
    · rw [← hfs1, ← hbp]

theorem restore_backup_dir_eq {fs : FileTree} {backupPath target : Str}
    (hexB : existsPath fs backupPath = true)
    (hexT : existsPath fs target = true)
    (hdirT : isDirPath fs target = true)
    (hdirB : isDirPath (rmtreePath fs target) backupPath = true) :
    restore_backup fs backupPath target =
      .ok (writeFiles (rmtreePath fs target)
        ((subtreeEntries (rmtreePath fs target) backupPath).map
          (fun e => (target ++ '/' :: e.1, e.2)))) := by
  simp only [restore_backup, hexB, hexT, hdirT, hdirB, Bool.not_true,
    Bool.false_eq_true, if_false, if_true]

/-- C6: backup round-trip.  For a directory tree `T` (existing, not a
file, placed outside the backup storage area), creating a backup and
restoring it over `T` leaves every file under `T` — content and
structure — exactly as before the backup, and leaves no stray file at
`T` itself. -/
theorem backup_roundtrip_identity
    {fs fs1 fs2 : FileTree} {T ts bp : Str}
    (hnd : (fs.map Prod.fst).Nodup)
    (hTfile : lookupFile fs T = none)
    (hdir : isDirPath fs T = true)
    (hT1 : isPrefix (BACKUP_DIR ++ ['/']) T = false)
    (hT2 : T ≠ BACKUP_DIR)
    (hT3 : isPrefix (T ++ ['/']) BACKUP_DIR = false)
    (hcreate : create_backup fs T ts = .ok (fs1, bp))
    (hrestore : restore_backup fs1 bp T = .ok fs2) :
    (∀ rest, lookupFile fs2 (T ++ '/' :: rest) =
      lookupFile fs (T ++ '/' :: rest)) ∧
    lookupFile fs2 T = none := by
  obtain ⟨hbp, hfresh, hfs1⟩ := create_backup_dir_inv hdir hcreate
  -- T is disjoint from everything under the backup storage directory
  have hTunderB : ∀ x, isPrefix (T ++ ['/']) (BACKUP_DIR ++ '/' :: x) = false :=
    fun x => not_under_of_disjoint x hT3 hT2 hT1
  have hTnotB : ∀ x, T ≠ BACKUP_DIR ++ '/' :: x := by
    intro x hc
    have hpre : isPrefix (BACKUP_DIR ++ ['/']) T = true := by
      rw [hc]
      have hx : BACKUP_DIR ++ '/' :: x = (BACKUP_DIR ++ ['/']) ++ x := by simp
      rw [hx]; exact isPrefix_append _ _
    rw [hpre] at hT1; cases hT1
  have hTbp : isPrefix (T ++ ['/']) bp = false := by rw [hbp]; exact hTunderB _
  have hTne_bp : T ≠ bp := by rw [hbp]; exact hTnotB _
  have hbpT : isPrefix (bp ++ ['/']) T = false := by
    by_contra hc
    rw [Bool.not_eq_false, isPrefix_iff] at hc
    obtain ⟨t, ht⟩ := hc
    have hpre : isPrefix (BACKUP_DIR ++ ['/']) T = true := by
      rw [ht, hbp, isPrefix_iff]
      exact ⟨(basename T ++ "_".toList ++ ts) ++ '/' :: t, by simp⟩
    rw [hpre] at hT1; cases hT1
  have hTnotMeta :
      T ≠ BACKUP_DIR ++ '/' :: ((basename T ++ "_".toList ++ ts) ++
        ".json".toList) := hTnotB _
  have hplnd :
      (((subtreeEntries fs T).map
        (fun e => (bp ++ '/' :: e.1, e.2))).map Prod.fst).Nodup :=
    reroot_keys_nodup (subtreeEntries_keys_nodup hnd T) bp
  have hfs1nd : (fs1.map Prod.fst).Nodup := by
    rw [hfs1]
    exact insertFile_keys_nodup (writeFiles_keys_nodup hnd _) _ _
  -- nothing under T changed during create
  have f6 : ∀ r, lookupFile fs1 (T ++ '/' :: r) = lookupFile fs (T ++ '/' :: r) := by
    intro r
    rw [hfs1]
    rw [lookupFile_insertFile_ne _ _ _ _ (by
      intro hc
      have hpre : isPrefix (T ++ ['/']) (T ++ '/' :: r) = true := by
        have hx : T ++ '/' :: r = (T ++ ['/']) ++ r := by simp
        rw [hx]; exact isPrefix_append _ _
      rw [← hc, hTunderB _] at hpre
      cases hpre)]
    rw [lookupFile_writeFiles hplnd]
    rw [lookupFile_map_reroot_none (subtreeEntries fs T)
      (not_under_of_disjoint r hbpT (Ne.symm hTne_bp) hTbp)]
  -- the payload reproduces the old subtree of T
  have f11 : ∀ r, lookupFile fs1 (bp ++ '/' :: r) = lookupFile fs (T ++ '/' :: r) := by
    intro r
    rw [hfs1]
    rw [lookupFile_insertFile_ne _ _ _ _ (by
      rw [hbp]
      intro hc
      simp only [List.append_assoc, List.cons_append] at hc
      have h1 := List.cons_injective (List.append_cancel_left hc)
      have h2 := List.append_cancel_left h1
      have h3 := List.append_cancel_left h2
      have h4 := List.append_cancel_left h3
      have h5 : ('.' : Char) :: "json".toList = '/' :: r := by
        have e1 : ".json".toList = '.' :: "json".toList := rfl
        rw [← e1]
        exact h4
      injection h5 with h6 _
      exact absurd h6 (by decide))]
    rw [lookupFile_writeFiles hplnd]
    rw [lookupFile_map_reroot (subtreeEntries fs T) bp r]
    rw [lookupFile_subtreeEntries]
    cases hv : lookupFile fs (T ++ '/' :: r) with
    | some v => rfl
    | none =>
      have hsub : subtreeEntries fs bp = [] := (of_existsPath_false hfresh).2
      exact lookupFile_below_of_subtree_nil hsub r
  -- a witness file below T certifies directory existence on both sides
  obtain ⟨r₁, c₁, hr₁⟩ : ∃ r₁ c₁, lookupFile fs (T ++ '/' :: r₁) = some c₁ := by
    cases hc : subtreeEntries fs T with
    | nil =>
      unfold isDirPath at hdir
      rw [hc] at hdir
      cases hdir
    | cons e S' =>
      obtain ⟨r₁, c₁⟩ := e
      refine ⟨r₁, c₁, ?_⟩
      rw [← lookupFile_subtreeEntries, hc]
      simp
  have hfs1r₁ : lookupFile fs1 (bp ++ '/' :: r₁) = some c₁ := by
    rw [f11]; exact hr₁
  have hdirT1 : isDirPath fs1 T = true :=
    isDirPath_of_lookup_below (by rw [f6]; exact hr₁)
  -- nothing under the backup path is touched by the target removal
  have f10 : ∀ r, lookupFile (rmtreePath fs1 T) (bp ++ '/' :: r) =
      lookupFile fs1 (bp ++ '/' :: r) := by
    intro r
    exact lookupFile_rmtreePath_other (not_under_of_disjoint r hTbp hTne_bp hbpT)
  have hdirB : isDirPath (rmtreePath fs1 T) bp = true :=
    isDirPath_of_lookup_below (by rw [f10]; exact hfs1r₁)
  have hexB : existsPath fs1 bp = true :=
    existsPath_of_isDirPath (isDirPath_of_lookup_below hfs1r₁)
  -- unfold the restore
  have hfs2 : fs2 = writeFiles (rmtreePath fs1 T)
      ((subtreeEntries (rmtreePath fs1 T) bp).map
        (fun e => (T ++ '/' :: e.1, e.2))) :=
    (Except.ok.inj ((restore_backup_dir_eq hexB
      (existsPath_of_isDirPath hdirT1) hdirT1 hdirB).symm.trans hrestore)).symm
  have hfs1'nd : ((rmtreePath fs1 T).map Prod.fst).Nodup :=
    filter_keys_nodup hfs1nd _
  have hpTnd :
      (((subtreeEntries (rmtreePath fs1 T) bp).map
        (fun e => (T ++ '/' :: e.1, e.2))).map Prod.fst).Nodup :=
    reroot_keys_nodup (subtreeEntries_keys_nodup hfs1'nd bp) T
  have hchain : ∀ rest,
      lookupFile ((subtreeEntries (rmtreePath fs1 T) bp).map
        (fun e => (T ++ '/' :: e.1, e.2))) (T ++ '/' :: rest) =
      lookupFile fs (T ++ '/' :: rest) := by
    intro rest
    rw [lookupFile_map_reroot, lookupFile_subtreeEntries, f10, f11]
  constructor
  · intro rest
    rw [hfs2, lookupFile_writeFiles hpTnd]
    cases hv : lookupFile fs (T ++ '/' :: rest) with
    | some v =>
      rw [hchain rest, hv]
    | none =>
      rw [hchain rest, hv]
      exact lookupFile_rmtreePath_under fs1 T rest
  · rw [hfs2, lookupFile_writeFiles hpTnd]
    rw [lookupFile_map_reroot_none _ (isPrefix_slash_self T)]
    show lookupFile (rmtreePath fs1 T) T = none
    rw [lookupFile_rmtreePath_other (isPrefix_slash_self T)]
    rw [hfs1]
    rw [lookupFile_insertFile_ne _ _ _ _ (Ne.symm hTnotMeta)]
    rw [lookupFile_writeFiles hplnd]
    rw [lookupFile_map_reroot_none (subtreeEntries fs T) hbpT]
    exact hTfile

/-- C6 witness: a one-file directory `t` round-trips through a concrete
backup and restore. -/
theorem backup_roundtrip_identity_witness :
    lookupFile
        [(".ccpm_backup/t_1/a".toList, "x".toList),
         (".ccpm_backup/t_1.json".toList,
          "source=t;created_at=1;type=directory".toList),
         ("t/a".toList, "x".toList)]
        ("t".toList ++ '/' :: "a".toList) =
      lookupFile [("t/a".toList, "x".toList)]
        ("t".toList ++ '/' :: "a".toList) ∧
    lookupFile
        [(".ccpm_backup/t_1/a".toList, "x".toList),
         (".ccpm_backup/t_1.json".toList,
          "source=t;created_at=1;type=directory".toList),
         ("t/a".toList, "x".toList)]
        "t".toList = none :=
  ⟨(@backup_roundtrip_identity
      [("t/a".toList, "x".toList)]
      [("t/a".toList, "x".toList),
       (".ccpm_backup/t_1/a".toList, "x".toList),
       (".ccpm_backup/t_1.json".toList,
        "source=t;created_at=1;type=directory".toList)]
      [(".ccpm_backup/t_1/a".toList, "x".toList),
       (".ccpm_backup/t_1.json".toList,
        "source=t;created_at=1;type=directory".toList),
       ("t/a".toList, "x".toList)]
      "t".toList "1".toList ".ccpm_backup/t_1".toList
      (by decide) rfl (by decide) (by decide) (by decide) (by decide)
      rfl rfl).1 "a".toList,
   (@backup_roundtrip_identity
      [("t/a".toList, "x".toList)]
      [("t/a".toList, "x".toList),
       (".ccpm_backup/t_1/a".toList, "x".toList),
       (".ccpm_backup/t_1.json".toList,
        "source=t;created_at=1;type=directory".toList)]
      [(".ccpm_backup/t_1/a".toList, "x".toList),
       (".ccpm_backup/t_1.json".toList,
        "source=t;created_at=1;type=directory".toList),
       ("t/a".toList, "x".toList)]
      "t".toList "1".toList ".ccpm_backup/t_1".toList
      (by decide) rfl (by decide) (by decide) (by decide) (by decide)
      rfl rfl).2⟩

end CCPM.BackupManager

/-! ## Setup over an existing `.claude` directory
(`CCPMInstaller.setup` steps 5-7 and
`CCPMInstaller._merge_user_content_from_backup`,
`_merge_directory_contents`, `_merge_settings_files`).

These walk directory levels recursively (`iterdir` plus recursion), so
the tree is modelled as a rose tree here. -/

namespace CCPM.Setup

open CCPM

/-- A directory entry: a file with content, or a directory with named
children. -/
inductive Node where
  | file (content : Str)
  | dir (children : List (Str × Node))

/-- The children of a directory. -/
abbrev Children := List (Str × Node)

def lookupChild : Children → Str → Option Node
  | [], _ => none
  | (k, n) :: rest, name => if k = name then some n else lookupChild rest name

/-- Place (or replace) a named child. -/
def insertChild (cs : Children) (name : Str) (n : Node) : Children :=
  cs.filter (fun e => !decide (e.1 = name)) ++ [(name, n)]

/-- The names `_merge_directory_contents` treats as template files. -/
def skip_names : List Str := [".gitkeep".toList, "README.md".toList]

mutual
/-- `CCPMInstaller._merge_directory_contents`: walk the source items;
directories are copied wholesale when absent and merged recursively when
present; files are copied unless the target exists and the name is a
known template name. -/
def mergeDirContents : Children → Children → Children
  | [], tgt => tgt
  | (name, n) :: rest, tgt => mergeDirContents rest (mergeItemInto tgt name n)

/-- One iteration of the `_merge_directory_contents` loop. -/
def mergeItemInto (tgt : Children) (name : Str) : Node → Children
  | Node.file c =>
    if (lookupChild tgt name).isNone || !(skip_names.contains name) then
      insertChild tgt name (Node.file c)
    else tgt
  | Node.dir cs =>
    match lookupChild tgt name with
    | none => insertChild tgt name (Node.dir cs)
    | some (Node.dir tcs) => insertChild tgt name (Node.dir (mergeDirContents cs tcs))
    | some (Node.file _) => tgt
      -- Python would raise copying below a file path; unreachable in the
      -- states the claims quantify over
end

/-- The per-item loop over a user directory's backup content in
`_merge_user_content_from_backup`: directories are copied or merged,
files are copied unless named `.gitkeep`/`README.md`. -/
def mergeUserItems (items tcs : Children) : Children :=
  items.foldl
    (fun acc it =>
      match it.2 with
      | Node.dir cs =>
        match lookupChild acc it.1 with
        | none => insertChild acc it.1 (Node.dir cs)
        | some (Node.dir tcs') =>
          insertChild acc it.1 (Node.dir (mergeDirContents cs tcs'))
        | some (Node.file _) => acc
      | Node.file c =>
        if !(skip_names.contains it.1) then insertChild acc it.1 (Node.file c)
        else acc)
    tcs

/-- The user-content directories `_merge_user_content_from_backup`
preserves. -/
def user_dirs : List Str :=
  ["agents".toList, "prds".toList, "epics".toList, "context".toList]

/-- One `user_dirs` iteration: ensure the target directory exists
(`mkdir(parents=True, exist_ok=True)`) and merge the backup items into
it. -/
def mergeUserDirStep (claude backup : Children) (d : Str) : Children :=
  match lookupChild backup d with
  | some (Node.dir items) =>
    (match lookupChild claude d with
     | none => insertChild claude d (Node.dir (mergeUserItems items []))
     | some (Node.dir tcs) => insertChild claude d (Node.dir (mergeUserItems items tcs))
     | some (Node.file _) => claude)  -- mkdir over a file raises in Python
  | _ => claude  -- backup user dir absent

/-- The `settings.local.json` merge step; the content-level JSON merge
(`_merge_settings_files`) is abstracted as a function of the backup and
template contents — its result never touches any other path. -/
def mergeSettingsStep (claude backup : Children)
    (mergeFn : Str → Str → Str) : Children :=
  match lookupChild backup "settings.local.json".toList,
      lookupChild claude "settings.local.json".toList with
  | some (Node.file b), some (Node.file t) =>
    insertChild claude "settings.local.json".toList (Node.file (mergeFn b t))
  | _, _ => claude

/-- The root-item names `_merge_user_content_from_backup` treats as
belonging to the standard CCPM template. -/
def ccpm_template_items : List Str :=
  ["agents".toList, "commands".toList, "context".toList, "epics".toList,
   "prds".toList, "scripts".toList, "settings.local.json".toList,
   "CLAUDE.md".toList, ".gitkeep".toList, "README.md".toList]

/-- The final pass over the backup root: custom files and directories not
in the template-items set are copied or merged back. -/
def mergeRootCustom (claude backup : Children) : Children :=
  backup.foldl
    (fun acc it =>
      if ccpm_template_items.contains it.1 then acc
      else
        match it.2 with
        | Node.dir cs =>
          match lookupChild acc it.1 with
          | none => insertChild acc it.1 (Node.dir cs)
          | some (Node.dir tcs) =>
            insertChild acc it.1 (Node.dir (mergeDirContents cs tcs))
          | some (Node.file _) => acc
        | Node.file c =>
          if (lookupChild acc it.1).isNone then insertChild acc it.1 (Node.file c)
          else acc)
    claude

/-- `CCPMInstaller._merge_user_content_from_backup`. -/
def merge_user_content_from_backup (backup claude : Children)
    (mergeFn : Str → Str → Str) : Children :=
  mergeRootCustom
    (mergeSettingsStep
      (user_dirs.foldl (fun acc d => mergeUserDirStep acc backup d) claude)
      backup mergeFn)
    backup

/-- `CCPMInstaller.setup` steps 5-7, restricted to the `.claude` tree:
with a pre-existing `.claude` the old tree is moved to `.claude.backup`,
the bundled template is copied fresh, and the user content is merged
back from the backup; without one the template is copied directly. -/
def setup_claude_tree (template : Children) (existing : Option Children)
    (mergeFn : Str → Str → Str) : Children :=
  match existing with
  | none => template
  | some old => merge_user_content_from_backup old template mergeFn

theorem lookupChild_insertChild_ne (cs : Children) (q : Str) (n : Node)
    {p : Str} (h : q ≠ p) :
    lookupChild (insertChild cs q n) p = lookupChild cs p := by
  unfold insertChild
  induction cs with
  | nil => simp [lookupChild, h]
  | cons e rest ih =>
    obtain ⟨k, v⟩ := e
    by_cases hk : k = p
    · subst hk
      simp [lookupChild, Ne.symm h, ih]
    · by_cases hkq : k = q <;> simp [lookupChild, hk, hkq, ih, h]

theorem mergeUserDirStep_lookup_other (claude backup : Children) {d k : Str}
    (h : d ≠ k) :
    lookupChild (mergeUserDirStep claude backup d) k = lookupChild claude k := by
  unfold mergeUserDirStep
  cases lookupChild backup d with
  | none => rfl
  | some n =>
    cases n with
    | file c => rfl
    | dir items =>
      cases lookupChild claude d with
      | none => exact lookupChild_insertChild_ne _ _ _ h
      | some m =>
        cases m with
        | file c => rfl
        | dir tcs => exact lookupChild_insertChild_ne _ _ _ h

theorem foldl_mergeUserDirStep_lookup_other (backup : Children) {k : Str}
    (ds : List Str) (hds : ∀ d ∈ ds, d ≠ k) (claude : Children) :
    lookupChild (ds.foldl (fun acc d => mergeUserDirStep acc backup d) claude) k =
      lookupChild claude k := by
  induction ds generalizing claude with
  | nil => rfl
  | cons d rest ih =>
    rw [List.foldl_cons, ih (fun x hx => hds x (List.mem_cons_of_mem _ hx))]
    exact mergeUserDirStep_lookup_other claude backup (hds d (List.mem_cons_self _ _))

theorem mergeSettingsStep_lookup_other (claude backup : Children)
    (mergeFn : Str → Str → Str) {k : Str}
    (h : "settings.local.json".toList ≠ k) :
    lookupChild (mergeSettingsStep claude backup mergeFn) k =
      lookupChild claude k := by
  unfold mergeSettingsStep
  cases lookupChild backup "settings.local.json".toList with
  | none => rfl
  | some nb =>
    cases nb with
    | dir _ => rfl
    | file b =>
      cases lookupChild claude "settings.local.json".toList with
      | none => rfl
      | some nt =>
        cases nt with
        | dir _ => rfl
        | file t => exact lookupChild_insertChild_ne _ _ _ h

theorem mergeRootCustom_foldl_aux {k : Str}
    (hk : ccpm_template_items.contains k = true)
    (backup : Children) (claude : Children) :
    lookupChild
      (backup.foldl
        (fun acc it =>
          if ccpm_template_items.contains it.1 then acc
          else
            match it.2 with
            | Node.dir cs =>
              match lookupChild acc it.1 with
              | none => insertChild acc it.1 (Node.dir cs)
              | some (Node.dir tcs) =>
                insertChild acc it.1 (Node.dir (mergeDirContents cs tcs))
              | some (Node.file _) => acc
            | Node.file c =>
              if (lookupChild acc it.1).isNone then
                insertChild acc it.1 (Node.file c)
              else acc)
        claude) k = lookupChild claude k := by
  induction backup generalizing claude with
  | nil => rfl
  | cons it rest ih =>
    rw [List.foldl_cons, ih]
    by_cases hc : ccpm_template_items.contains it.1 = true
    · rw [if_pos hc]
    · rw [if_neg hc]
      have hne : it.1 ≠ k := by
        rintro rfl
        exact hc hk
      cases it.2 with
      | dir cs =>
        cases lookupChild claude it.1 with
        | none => exact lookupChild_insertChild_ne _ _ _ hne
        | some m =>
          cases m with
          | file c => rfl
          | dir tcs => exact lookupChild_insertChild_ne _ _ _ hne
      | file c =>
        show lookupChild (if (lookupChild claude it.1).isNone = true then
            insertChild claude it.1 (Node.file c) else claude) k = _
        by_cases habs : (lookupChild claude it.1).isNone = true
        · rw [if_pos habs]
          exact lookupChild_insertChild_ne _ _ _ hne
        · rw [if_neg habs]

theorem mergeRootCustom_lookup_template (backup : Children) {k : Str}
    (hk : ccpm_template_items.contains k = true) (claude : Children) :
    lookupChild (mergeRootCustom claude backup) k = lookupChild claude k :=
  mergeRootCustom_foldl_aux hk backup claude

/-- Through the whole backup merge, `CLAUDE.md` keeps the value the
fresh template copy gave it: every step writes only at other names, and
the root pass explicitly skips `CLAUDE.md` as a template item. -/
theorem setup_claude_md_aux (template old : Children)
    (mergeFn : Str → Str → Str) :
    lookupChild (setup_claude_tree template (some old) mergeFn)
        "CLAUDE.md".toList =
      lookupChild template "CLAUDE.md".toList := by
  show lookupChild (mergeRootCustom (mergeSettingsStep
    (user_dirs.foldl (fun acc d => mergeUserDirStep acc old d) template)
    old mergeFn) old) "CLAUDE.md".toList = _
  rw [mergeRootCustom_lookup_template old (by decide)]
  rw [mergeSettingsStep_lookup_other _ _ _ (by decide)]
  rw [foldl_mergeUserDirStep_lookup_other old user_dirs (by decide) template]

/-- Modelled from the spec: the bundled `claude_template` directory tree
(package data, not shipped under `src/`), which per §3/§4 and the
installer's scaffolding allowlist ("CLAUDE.md — Project instructions")
contains a `CLAUDE.md` template among the scaffolding. -/
def claude_template_model : Children :=
  [("CLAUDE.md".toList, Node.file "# CCPM template instructions".toList),
   ("settings.local.json".toList, Node.file "template settings".toList),
   ("commands".toList, Node.dir
     [("pm".toList, Node.dir [("init.md".toList, Node.file "init".toList)])]),
   ("prds".toList, Node.dir [(".gitkeep".toList, Node.file [])])]

/-- Stand-in for `_merge_settings_files`' content-level JSON merge; its
result is irrelevant to any path other than `settings.local.json`. -/
def mergeSettingsModel : Str → Str → Str := fun _ t => t

/-- A pre-existing `.claude` with customized project instructions. -/
def old_claude_model : Children :=
  [("CLAUDE.md".toList, Node.file "# my custom instructions".toList),
   ("prds".toList, Node.dir [("feature.md".toList, Node.file "F".toList)])]

/-- C2 counterexample: a target with a pre-existing customized
`.claude/CLAUDE.md` does not keep its content through setup — the live
file ends up with the template's content (the pre-setup file survives
only inside `.claude.backup`). -/
theorem setup_replaces_existing_claude_md_counterexample :
    lookupChild old_claude_model "CLAUDE.md".toList =
      some (Node.file "# my custom instructions".toList) ∧
    lookupChild
        (setup_claude_tree claude_template_model (some old_claude_model)
          mergeSettingsModel) "CLAUDE.md".toList ≠
      some (Node.file "# my custom instructions".toList) := by
  refine ⟨rfl, ?_⟩
  rw [setup_claude_md_aux]
  intro h
  rw [show lookupChild claude_template_model "CLAUDE.md".toList =
    some (Node.file "# CCPM template instructions".toList) from rfl] at h
  injection h with h1
  injection h1 with h2
  exact absurd h2 (by decide)

/-- C2 amended: after setup over a target with a pre-existing `.claude`
directory, `.claude/CLAUDE.md` holds exactly what the bundled template
ships at that name (or is absent when the template lacks it); the
pre-setup content is never merged back, because the backup-merge step
lists `CLAUDE.md` among the template-owned items and skips it. -/
theorem setup_claude_md_comes_from_template (template old : Children)
    (mergeFn : Str → Str → Str) :
    lookupChild (setup_claude_tree template (some old) mergeFn)
        "CLAUDE.md".toList =
      lookupChild template "CLAUDE.md".toList :=
  setup_claude_md_aux template old mergeFn

end CCPM.Setup
